import Mathlib

set_option maxRecDepth 8000
set_option maxHeartbeats 1000000

attribute [local semireducible] Rat.add Rat.mul Rat.inv Rat.sub Rat.ofScientific

/-!
# Verification of the dashboard-autos ETL / analytics core

Shallow embedding of `src/market_suite/data.py` and
`src/market_suite/analytics.py` (the ETL cleaning pipeline, the time-window
selector and the aggregation / YoY engine), followed by theorems settling
the frozen claims about this code.

Modelling conventions:
* pandas cell values are an inductive `Cell` (Python `None`, float `NaN`,
  `±inf`, strings, int64 values, float values as exact rationals `ℚ`,
  datetimes as calendar dates);
* float arithmetic is modelled exactly over `ℚ`; the special values
  NaN/±inf are explicit constructors handled by the same case analyses the
  code performs (`replace`, `fillna`);
* a DataFrame is a column-name list plus rows of cells aligned by position;
* Python `str` / regex operations are modelled on `List Char`.
-/

/-! ## Characters and Python string primitives -/

/-- Whitespace characters matched by the regex class `\s` (ASCII range). -/
def isWsChar (c : Char) : Bool :=
  c = ' ' || c = '\t' || c = '\n' || c = '\r' || c = '\x0b' || c = '\x0c'

/-- Lower/upper pairs for Python `str.upper`, restricted to the ASCII
letters plus `ñ`, the alphabet appearing in this repository's column
names and data. -/
def upperPairs : List (Char × Char) :=
  [('a', 'A'), ('b', 'B'), ('c', 'C'), ('d', 'D'), ('e', 'E'), ('f', 'F'),
   ('g', 'G'), ('h', 'H'), ('i', 'I'), ('j', 'J'), ('k', 'K'), ('l', 'L'),
   ('m', 'M'), ('n', 'N'), ('o', 'O'), ('p', 'P'), ('q', 'Q'), ('r', 'R'),
   ('s', 'S'), ('t', 'T'), ('u', 'U'), ('v', 'V'), ('w', 'W'), ('x', 'X'),
   ('y', 'Y'), ('z', 'Z'), ('ñ', 'Ñ')]

/-- One character of Python `str.upper`. -/
def pyUpperChar (c : Char) : Char :=
  match upperPairs.find? (fun p => p.1 = c) with
  | some p => p.2
  | none => c

/-- Python `str.upper` on a character list. -/
def pyUpperL (l : List Char) : List Char := l.map pyUpperChar

/-- Python `str.strip()`: drop leading and trailing whitespace. -/
def pyStripL (l : List Char) : List Char :=
  ((l.dropWhile isWsChar).reverse.dropWhile isWsChar).reverse

/-- `re.sub(r"\s+", " ", ·)`: collapse every whitespace run to one space. -/
def collapseWs : List Char → List Char
  | [] => []
  | [c] => if isWsChar c then [' '] else [c]
  | c1 :: c2 :: r =>
    if isWsChar c1 && isWsChar c2 then collapseWs (c2 :: r)
    else (if isWsChar c1 then ' ' else c1) :: collapseWs (c2 :: r)

/-! ## Numeric coercion (`to_number_series`, data.py lines 68–73)

The code applies, per cell of the stringified series:
1. `str.replace(r"[,$₡\s]", "")` — drop commas, currency symbols, whitespace;
2. `str.replace(r"(?<=\d)\.(?=\d{3}\b)", "")` — drop a dot preceded by a
   digit and followed by exactly three digits at a word boundary;
3. `str.replace(",", ".")` — literal comma to dot;
4. `pd.to_numeric(errors="coerce").fillna(0)`.
-/

/-- Step 1 of `to_number_series`: remove `,`, `$`, `₡` and whitespace. -/
def rmJunk (l : List Char) : List Char :=
  l.filter (fun c => !(c = ',' || c = '$' || c = '₡' || isWsChar c))

/-- Regex word character (`\w`), ASCII fragment. -/
def isWordChar (c : Char) : Bool :=
  c.isDigit || ('a' ≤ c && c ≤ 'z') || ('A' ≤ c && c ≤ 'Z') || c = '_'

/-- Lookahead `(?=\d{3}\b)`: three digits then a word boundary. -/
def threeDigitsBdry : List Char → Bool
  | a :: b :: c :: r =>
    a.isDigit && b.isDigit && c.isDigit &&
      (match r with | [] => true | d :: _ => !isWordChar d)
  | _ => false

/-- Step 2 of `to_number_series`: `re.sub(r"(?<=\d)\.(?=\d{3}\b)", "", ·)`.
The lookbehind inspects the character of the original string preceding the
candidate dot, so the scan carries that original predecessor along. -/
def rmThouDotsGo : Option Char → List Char → List Char
  | _, [] => []
  | prev, c :: rest =>
    if c = '.' && (match prev with | some p => p.isDigit | none => false)
        && threeDigitsBdry rest then
      rmThouDotsGo (some '.') rest
    else
      c :: rmThouDotsGo (some c) rest

def rmThouDots (l : List Char) : List Char := rmThouDotsGo none l

/-- Step 3 of `to_number_series`: `str.replace(",", ".")`. -/
def commaToDot (l : List Char) : List Char :=
  l.map (fun c => if c = ',' then '.' else c)

/-- Value of a list of decimal digit characters. -/
def digitsVal (l : List Char) : ℕ :=
  l.foldl (fun acc c => acc * 10 + (c.toNat - '0'.toNat)) 0

/-- `pd.to_numeric(errors="coerce")` on one already-munged string, modelled
for the plain decimal grammar (optional sign, digits, at most one dot, at
least one digit); anything else — including scientific notation and
`inf`/`nan` literals — coerces to NaN (`none`). -/
def parsePyNumber (l : List Char) : Option ℚ :=
  let core : List Char → Option ℚ := fun l =>
    let intPart := l.takeWhile (fun c => c ≠ '.')
    let rest := l.dropWhile (fun c => c ≠ '.')
    let fracPart := rest.drop 1
    if intPart.all Char.isDigit && fracPart.all Char.isDigit &&
        (decide (intPart ≠ []) || decide (fracPart ≠ [])) &&
        (rest.isEmpty || rest.take 1 = ['.']) && !fracPart.contains '.' then
      some (mkRat (Int.ofNat (digitsVal intPart * Nat.pow 10 fracPart.length
                                + digitsVal fracPart))
                  (Nat.pow 10 fracPart.length))
    else
      none
  match l with
  | '-' :: r => (core r).map (fun q => -q)
  | '+' :: r => core r
  | r => core r

/-- The full string-level coercion of `to_number_series` before `fillna`. -/
def to_number_opt (s : String) : Option ℚ :=
  parsePyNumber (commaToDot (rmThouDots (rmJunk s.data)))

/-- `to_number_series` per cell value, `fillna(0)` included. -/
def to_number_str (s : String) : ℚ := (to_number_opt s).getD 0


/-! ## Python float str() and cell values -/

def digitChar (n : ℕ) : Char := Char.ofNat (48 + n)

def natDigitsGo : ℕ → ℕ → List Char → List Char
  | 0, _, acc => acc
  | fuel + 1, n, acc =>
    if n < 10 then digitChar n :: acc
    else natDigitsGo fuel (n / 10) (digitChar (n % 10) :: acc)

/-- Decimal digits of a natural number. -/
def natDigits (n : ℕ) : List Char := natDigitsGo (n + 1) n []

def padZeroes (k : ℕ) (l : List Char) : List Char :=
  List.replicate (k - l.length) '0' ++ l

def pow10ExpGo (d : ℕ) : ℕ → ℕ → Option ℕ
  | _, 0 => none
  | k, fuel + 1 =>
    if Nat.pow 10 k % d = 0 then some k else pow10ExpGo d (k + 1) fuel

/-- Smallest `k` with `d ∣ 10^k`, if any (fuel-bounded). -/
def pow10Exp (d : ℕ) : Option ℕ := pow10ExpGo d 0 64

/-- Python `str()` of a float, modelled exactly for floats whose value is a
decimal fraction (the only floats the re-parsed numeric columns can hold):
the shortest decimal representation, with `.0` appended to integers, as
Python prints such values.  Rationals that are not decimal fractions fall
back to a `num/den` spelling (not reachable from parsed numeric data). -/
def floatRepr (q : ℚ) : List Char :=
  let sign : List Char := if q < 0 then ['-'] else []
  let n := q.num.natAbs
  let d := q.den
  match pow10Exp d with
  | some k =>
    let p := Nat.pow 10 k
    let scaled := n * (p / d)
    let frac := if k = 0 then ['0'] else padZeroes k (natDigits (scaled % p))
    sign ++ natDigits (scaled / p) ++ '.' :: frac
  | none => sign ++ natDigits n ++ '/' :: natDigits d

/-- Calendar date (pandas `Timestamp`, time-of-day elided — the data holds
plain dates). -/
structure PDate where
  year : ℤ
  month : ℕ
  day : ℕ
deriving DecidableEq, Repr

/-- Order key; injective on valid dates (month ≤ 12 < 16, day ≤ 31 < 32). -/
def PDate.key (d : PDate) : ℤ := d.year * 512 + d.month * 32 + d.day

def pdMax (a b : PDate) : PDate := if a.key ≤ b.key then b else a

def splitOnGo (sep : Char) : List Char → List Char → List (List Char)
  | [], acc => [acc.reverse]
  | c :: r, acc =>
    if c = sep then acc.reverse :: splitOnGo sep r []
    else splitOnGo sep r (c :: acc)

def splitOn (sep : Char) (l : List Char) : List (List Char) := splitOnGo sep l []

/-- `pd.to_datetime(errors="coerce")` on one string, modelled for ISO
`YYYY-MM-DD` dates (the format the dataset uses); the month is range
checked, the day against 31 (exact month-length/leap validation elided —
no claim depends on it).  Other formats coerce to `NaT`. -/
def parseDateStr (l : List Char) : Option PDate :=
  match splitOn '-' l with
  | [y, m, d] =>
    if y.all Char.isDigit && m.all Char.isDigit && d.all Char.isDigit &&
        decide (y ≠ []) && decide (m ≠ []) && decide (d ≠ []) then
      let M := digitsVal m
      let D := digitsVal d
      if 1 ≤ M && M ≤ 12 && 1 ≤ D && D ≤ 31 then
        some ⟨Int.ofNat (digitsVal y), M, D⟩
      else none
    else none
  | _ => none

/-- A pandas cell: Python `None`, float `NaN` (also standing for `NaT`),
`±inf`, strings, int64 values, float values (exact rationals), datetimes. -/
inductive Cell
  | pynone
  | nan
  | inf
  | ninf
  | str (s : String)
  | intv (z : ℤ)
  | numv (q : ℚ)
  | date (d : PDate)
deriving DecidableEq, Repr

/-- Numeric view of a cell (int64 or float64 value), if any. -/
def cellQ? : Cell → Option ℚ
  | Cell.numv q => some q
  | Cell.intv z => some (mkRat z 1)
  | _ => none

/-- Python `str()` of a cell value, as `.astype(str)` / `str(x)` produce:
`None → "None"`, `nan → "nan"`, floats via `floatRepr`, dates in
`Timestamp` form. -/
def cellToStr : Cell → String
  | Cell.pynone => "None"
  | Cell.nan => "nan"
  | Cell.inf => "inf"
  | Cell.ninf => "-inf"
  | Cell.str s => s
  | Cell.intv z =>
    if z < 0 then ⟨'-' :: natDigits z.natAbs⟩ else ⟨natDigits z.natAbs⟩
  | Cell.numv q => ⟨floatRepr q⟩
  | Cell.date d =>
    ⟨padZeroes 4 (natDigits d.year.natAbs) ++ '-' :: padZeroes 2 (natDigits d.month)
      ++ '-' :: padZeroes 2 (natDigits d.day) ++ " 00:00:00".data⟩

/-- `safe_upper_str` (data.py lines 62–65): `""` for `None`, else
`str(x).strip().upper()`. -/
def safe_upper_str (c : Cell) : String :=
  match c with
  | Cell.pynone => ""
  | c => ⟨pyUpperL (pyStripL (cellToStr c).data)⟩

/-- `to_number_series` applied to one cell (`.astype(str)` then the three
substitutions, `pd.to_numeric(errors="coerce")`, `.fillna(0)`). -/
def to_number_cell (c : Cell) : Cell := Cell.numv (to_number_str (cellToStr c))

-- scratch

/-! ## DataFrames -/

/-- A DataFrame: column names plus rows of cells aligned by position.
pandas guarantees every row has exactly the schema's cells; theorems that
need this alignment take it as the `DF.WF` hypothesis. -/
structure DF where
  cols : List String
  rows : List (List Cell)
deriving DecidableEq, Repr

/-- Index of a column name. (The model assumes canonicalization produces
distinct names, as the dataset's schema does; with duplicate labels pandas
column access returns sub-frames, which is out of scope.) -/
def colIdx : List String → String → Option ℕ
  | [], _ => none
  | k :: t, c => if k = c then some 0 else (colIdx t c).map (· + 1)

def DF.hasCol (df : DF) (c : String) : Bool := (colIdx df.cols c).isSome

/-- Every row has exactly one cell per column. -/
def DF.WF (df : DF) : Prop := ∀ r ∈ df.rows, r.length = df.cols.length

instance (df : DF) : Decidable df.WF := by
  unfold DF.WF; infer_instance

/-- The cell of `row` in column `c` (missing column/cell reads `None`;
the pipeline only reads columns it has checked for). -/
def cellAt (df : DF) (c : String) (row : List Cell) : Cell :=
  match colIdx df.cols c with
  | some i => row.getD i Cell.pynone
  | none => Cell.pynone

/-- `df[c] = df[c].map f` — transform one existing column cell-wise. -/
def DF.mapCol (df : DF) (c : String) (f : Cell → Cell) : DF :=
  match colIdx df.cols c with
  | some i => { cols := df.cols, rows := df.rows.map (fun r => r.set i (f (r.getD i Cell.pynone))) }
  | none => df

/-- `df[c] = <expr over the row>` — assign a column computed from the old
row, overwriting it if present, appending it otherwise. -/
def DF.addCol (df : DF) (c : String) (f : List Cell → Cell) : DF :=
  match colIdx df.cols c with
  | some i => { cols := df.cols, rows := df.rows.map (fun r => r.set i (f r)) }
  | none => { cols := df.cols ++ [c], rows := df.rows.map (fun r => r ++ [f r]) }

/-- `df[mask]` — keep the rows satisfying a boolean predicate. -/
def DF.filterRows (df : DF) (p : List Cell → Bool) : DF :=
  { cols := df.cols, rows := df.rows.filter p }

/-! ## ETL (data.py lines 25–56 configuration, 108–185 pipeline) -/

def CANON_COLS : List (String × String) :=
  [("FECHA", "FECHA"), ("AÑO", "AÑO"), ("ANO", "AÑO"), ("ANIO", "AÑO"),
   ("MES", "MES"), ("MES_NUM", "MES_NUM"), ("MARCA", "MARCA"),
   ("MODELO", "MODELO"), ("EMPRESA", "EMPRESA"), ("COMBUSTIBLE", "COMBUSTIBLE"),
   ("CARROCERIA", "CARROCERIA"), ("CANTIDAD", "CANTIDAD"),
   ("VALOR US$ CIF", "VALOR US$ CIF"), ("VALOR USD CIF", "VALOR US$ CIF"),
   ("VALOR_USD_CIF", "VALOR US$ CIF"), ("CIF", "VALOR US$ CIF"),
   ("FLETE", "FLETE"), ("FLETE_USD", "FLETE")]

def TEXT_COLS : List String :=
  ["MARCA", "MODELO", "EMPRESA", "COMBUSTIBLE", "CARROCERIA", "MES"]

def NUM_COLS : List String := ["CANTIDAD", "VALOR US$ CIF", "FLETE"]

def BRAND_FIXES : List (String × String) :=
  [("M.G.", "MG"), ("M. G.", "MG"), ("MORRIS GARAGES", "MG"),
   ("BYD AUTO", "BYD"), ("TOYOTA MOTOR", "TOYOTA"), ("MB", "MERCEDES-BENZ")]

/-- One column name through `canonicalize_columns`: `str(c).strip()`,
collapse whitespace runs, `.upper()`, then the `CANON_COLS` alias map. -/
def canonName (s : String) : String :=
  let u : String := ⟨pyUpperL (collapseWs (pyStripL s.data))⟩
  match CANON_COLS.find? (fun p => p.1 = u) with
  | some p => p.2
  | none => u

/-- `canonicalize_columns` (data.py lines 108–123). -/
def canonicalize_columns (df : DF) : DF :=
  { cols := df.cols.map canonName, rows := df.rows }

/-- Text-column pass of `etl_clean` (lines 150–152). -/
def cleanTextCols (df : DF) : DF :=
  TEXT_COLS.foldl
    (fun d col => if d.hasCol col then d.mapCol col (fun c => Cell.str (safe_upper_str c)) else d)
    df

/-- `df["MARCA"].replace(BRAND_FIXES)` acting on one cell: exact-match
replacement of known brand variants (string keys, so only string cells can
match). -/
def brand_fix_cell (c : Cell) : Cell :=
  match c with
  | Cell.str s =>
    (match BRAND_FIXES.find? (fun p => p.1 = s) with
     | some p => Cell.str p.2
     | none => Cell.str s)
  | c => c

/-- Brand pass of `etl_clean` (lines 155–156). -/
def cleanBrand (df : DF) : DF :=
  if df.hasCol "MARCA" then df.mapCol "MARCA" brand_fix_cell else df

/-- Numeric pass of `etl_clean` (lines 159–161). -/
def cleanNumCols (df : DF) : DF :=
  NUM_COLS.foldl
    (fun d col => if d.hasCol col then d.mapCol col to_number_cell else d)
    df

/-- `pd.to_datetime(errors="coerce")` on one cell.  `None`/`NaN` coerce to
`NaT` (modelled by `Cell.nan`); the numeric-epoch interpretation of number
cells is not modelled (the data never stores dates as numbers). -/
def to_datetime_cell : Cell → Cell
  | Cell.date d => Cell.date d
  | Cell.str s =>
    (match parseDateStr s.data with
     | some d => Cell.date d
     | none => Cell.nan)
  | _ => Cell.nan

def isDateCell : Cell → Bool
  | Cell.date _ => true
  | _ => false

/-- `max_observed_date` as Python sees it: the column was absent
(`ultima_fecha = None`), present but with no valid date (`max()` of an
empty datetime series is `NaT`), or an actual date.  `NaT` is *not*
Python `None`. -/
inductive UltimaFecha
  | isNone
  | isNaT
  | ts (d : PDate)
deriving DecidableEq, Repr

/-- The valid dates of the FECHA column. -/
def datesOf (df : DF) : List PDate :=
  df.rows.filterMap (fun r =>
    match cellAt df "FECHA" r with
    | Cell.date d => some d
    | _ => none)

/-- Date pass of `etl_clean` (lines 163–170): parse FECHA, drop rows where
it fails, derive AÑO and MES_NUM, record `ultima_fecha = df["FECHA"].max()`. -/
def dateStage (df : DF) : DF × UltimaFecha :=
  if df.hasCol "FECHA" then
    let d1 := df.mapCol "FECHA" to_datetime_cell
    let d2 := d1.filterRows (fun r => isDateCell (cellAt d1 "FECHA" r))
    let dA := d2.addCol "AÑO" (fun r =>
      match cellAt d2 "FECHA" r with
      | Cell.date d => Cell.intv d.year
      | _ => Cell.intv 0)
    let dB := dA.addCol "MES_NUM" (fun r =>
      match cellAt dA "FECHA" r with
      | Cell.date d => Cell.intv (Int.ofNat d.month)
      | _ => Cell.intv 0)
    let u := match datesOf d2 with
      | [] => UltimaFecha.isNaT
      | d :: t => UltimaFecha.ts (t.foldl pdMax d)
    (dB, u)
  else (df, UltimaFecha.isNone)

/-- `.replace(0, np.nan)` on one cell of the CANTIDAD column. -/
def replace0nan (c : Cell) : Cell :=
  if c = Cell.numv 0 || c = Cell.intv 0 then Cell.nan else c

/-- Float division of two cells with numpy semantics on the reachable
cases: `x / 0` is `NaN` for `x = 0` and `±inf` otherwise, anything
involving `NaN` is `NaN`.  (Infinite dividends also fall to the `NaN`
default; they cannot arise here, and the pipeline's next step maps `±inf`
to `NaN` anyway.  Non-numeric operands would raise in pandas and are
unreachable after numeric coercion.) -/
def cellDiv (a b : Cell) : Cell :=
  match cellQ? a, cellQ? b with
  | some x, some y =>
    if y = 0 then (if x = 0 then Cell.nan else if 0 < x then Cell.inf else Cell.ninf)
    else Cell.numv (x / y)
  | _, _ => Cell.nan

/-- `.replace([np.inf, -np.inf], np.nan)` on one cell. -/
def replaceInfNan : Cell → Cell
  | Cell.inf => Cell.nan
  | Cell.ninf => Cell.nan
  | c => c

/-- `.fillna(0)` on one cell (`None` is also NA in pandas). -/
def fillna0 : Cell → Cell
  | Cell.nan => Cell.numv 0
  | Cell.pynone => Cell.numv 0
  | c => c

/-- Derived-KPI pass of `etl_clean` (lines 172–179): unit metrics with the
zero-quantity guard. -/
def unitStage (df : DF) : DF :=
  let d1 :=
    if df.hasCol "VALOR US$ CIF" && df.hasCol "CANTIDAD" then
      df.addCol "CIF_UNITARIO" (fun r =>
        fillna0 (replaceInfNan (cellDiv (cellAt df "VALOR US$ CIF" r)
          (replace0nan (cellAt df "CANTIDAD" r)))))
    else df
  if d1.hasCol "FLETE" && d1.hasCol "CANTIDAD" then
    d1.addCol "FLETE_UNITARIO" (fun r =>
      fillna0 (replaceInfNan (cellDiv (cellAt d1 "FLETE" r)
        (replace0nan (cellAt d1 "CANTIDAD" r)))))
  else d1

/-- `df["CANTIDAD"] >= 0` on one cell: `NaN >= 0` is false; non-numeric
cells would raise in pandas (unreachable after coercion) and are read as
false. -/
def cellGE0 (c : Cell) : Bool :=
  match cellQ? c with
  | some q => decide (0 ≤ q)
  | none => false

/-- Guardrail pass of `etl_clean` (lines 181–183). -/
def qtyStage (df : DF) : DF :=
  if df.hasCol "CANTIDAD" then
    df.filterRows (fun r => cellGE0 (cellAt df "CANTIDAD" r))
  else df

/-- `etl_clean` (data.py lines 145–185). -/
def etl_clean (df : DF) : DF × UltimaFecha :=
  let d1 := canonicalize_columns df
  let d2 := cleanTextCols d1
  let d3 := cleanBrand d2
  let d4 := cleanNumCols d3
  let p := dateStage d4
  let d6 := unitStage p.1
  let d7 := qtyStage d6
  (d7, p.2)

/-- `df["MES_NUM"] <= mes_corte` on one cell. -/
def cellLeNat (c : Cell) (m : ℕ) : Bool :=
  match cellQ? c with
  | some q => decide (q ≤ mkRat (Int.ofNat m) 1)
  | none => false

/-- `apply_time_view` (data.py lines 188–194).  `int(ultima_fecha.month)`
on `NaT` raises `ValueError` (NaT's fields are float NaN), modelled as
`Except.error`. -/
def apply_time_view (df : DF) (u : UltimaFecha) (tv : String) : Except String DF :=
  if tv = "YTD" then
    match u with
    | UltimaFecha.isNone => Except.ok df
    | UltimaFecha.isNaT => Except.error "cannot convert float NaN to integer"
    | UltimaFecha.ts d =>
      if df.hasCol "MES_NUM" then
        Except.ok (df.filterRows (fun r => cellLeNat (cellAt df "MES_NUM" r) d.month))
      else Except.ok df
  else Except.ok df

/-! ## Analytics (analytics.py) -/

/-- `df[df["AÑO"] == y]`: pandas `==` against an int compares numerically. -/
def cellEqInt (c : Cell) (y : ℤ) : Bool :=
  match cellQ? c with
  | some q => decide (q = mkRat y 1)
  | none => false

/-- `df_main[df_main["AÑO"] == y]` — the year slice used by `yoy_table`. -/
def sliceYear (df : DF) (y : ℤ) : DF :=
  df.filterRows (fun r => cellEqInt (cellAt df "AÑO" r) y)

/-- `NaN`-like cells, which `groupby` drops from the keys. -/
def isNACell : Cell → Bool
  | Cell.pynone => true
  | Cell.nan => true
  | _ => false

/-- The distinct group keys of `df.groupby(dim)` (first-occurrence order;
pandas sorts keys, which none of the stated properties depend on). -/
def groupKeys (df : DF) (dim : String) : List Cell :=
  (df.rows.filterMap (fun r =>
    let c := cellAt df dim r
    if isNACell c then none else some c)).dedup

/-- Grouped sum of a numeric column over the rows of one key (pandas sums
skip NA values). -/
def sumQ (df : DF) (dim : String) (k : Cell) (col : String) : ℚ :=
  ((df.rows.filter (fun r => cellAt df dim r = k)).map
    (fun r => (cellQ? (cellAt df col r)).getD 0)).sum

/-- One row of a grouped year slice in `yoy_table`: key, volume sum, CIF
sum, share of the slice's own total. -/
structure GrpRow where
  key : Cell
  vol : ℚ
  cif : ℚ
  share : ℚ
deriving DecidableEq, Repr

/-- `groupby(dim).agg(... sum ...)` plus the share-of-total columns
(analytics.py lines 91–111): share is `vol / total * 100` when the slice
total is positive, else the scalar 0. -/
def grpOf (df : DF) (dim : String) : List GrpRow :=
  let ks := groupKeys df dim
  let tot := (ks.map (fun k => sumQ df dim k "CANTIDAD")).sum
  ks.map (fun k =>
    { key := k
      vol := sumQ df dim k "CANTIDAD"
      cif := sumQ df dim k "VALOR US$ CIF"
      share := if 0 < tot then sumQ df dim k "CANTIDAD" / tot * 100 else 0 })

/-- One row of the YoY comparison table. -/
structure YoYRow where
  cat : Cell
  volA : ℚ
  cifA : ℚ
  shareA : ℚ
  volP : ℚ
  cifP : ℚ
  shareP : ℚ
  dShare : ℚ
  dCif : ℚ
  estado : String
deriving DecidableEq, Repr

def mkYoYRow (k : Cell) (vA cA sA vP cP sP : ℚ) : YoYRow :=
  { cat := k, volA := vA, cifA := cA, shareA := sA,
    volP := vP, cifP := cP, shareP := sP,
    dShare := sA - sP, dCif := cA - cP,
    estado := if 0 ≤ sA - sP then "🟪 Ganó" else "🔻 Perdió" }

def grpLookup (g : List GrpRow) (k : Cell) : Option GrpRow :=
  g.find? (fun x => x.key = k)

/-- `pd.merge(grp_curr, grp_prev, on=dim_col, how="outer").fillna(0)`
followed by the delta/status columns (analytics.py lines 113–119):
left rows joined with their right match (zeros when absent), then the
unmatched right keys with zeros on the left. -/
def mergeYoY (gc gp : List GrpRow) : List YoYRow :=
  gc.map (fun x =>
    match grpLookup gp x.key with
    | some y => mkYoYRow x.key x.vol x.cif x.share y.vol y.cif y.share
    | none => mkYoYRow x.key x.vol x.cif x.share 0 0 0)
  ++ (gp.filter (fun y => (grpLookup gc y.key).isNone)).map
      (fun y => mkYoYRow y.key 0 0 0 y.vol y.cif y.share)

/-- `max(sel_years)` (guarded by `len ≥ 2` in `yoy_table`). -/
def maxSelYear (sel_years : List ℤ) : ℤ := (sel_years.max?).getD 0

/-- `yoy_table` (analytics.py lines 59–121). -/
def yoy_table (df_main df_view : DF) (dim_col : String) (sel_years : List ℤ) :
    Option (List YoYRow) :=
  if sel_years.length < 2 then none
  else
    let curr_y := maxSelYear sel_years
    let prev_y := curr_y - 1
    let df_curr := sliceYear df_view curr_y
    let df_prev := sliceYear df_main prev_y
    if df_curr.rows.isEmpty && df_prev.rows.isEmpty then none
    else some (mergeYoY (grpOf df_curr dim_col) (grpOf df_prev dim_col))

/-- One row of the `top_share` output. -/
structure TopRow where
  key : Cell
  vol : ℚ
  share : ℚ
deriving DecidableEq, Repr

/-- Descending order on grouped (key, volume) pairs for `sort_values
(ascending=False)`. -/
def volDesc (a b : Cell × ℚ) : Prop := b.2 ≤ a.2

instance : DecidableRel volDesc := fun a b => by
  unfold volDesc; infer_instance

instance : IsTotal (Cell × ℚ) volDesc := ⟨fun a b => le_total b.2 a.2⟩

instance : IsTrans (Cell × ℚ) volDesc := ⟨fun _ _ _ h1 h2 => le_trans h2 h1⟩

/-- `top_share` (analytics.py lines 31–37): group by the dimension, sum
quantity, sort descending, keep the top n, and compute shares against the
kept rows' subtotal (`if denom` is Python truthiness: zero means the
scalar 0 is assigned instead). -/
def top_share (df : DF) (dim : String) (top_n : ℕ) : List TopRow :=
  let g := (groupKeys df dim).map (fun k => (k, sumQ df dim k "CANTIDAD"))
  let t := (List.insertionSort volDesc g).take top_n
  let denom := (t.map (fun x => x.2)).sum
  t.map (fun x =>
    { key := x.1, vol := x.2,
      share := if denom ≠ 0 then x.2 / denom * 100 else 0 })

/-! ## Generic DataFrame lemmas -/

theorem list_set_getD_self {α : Type} (d : α) :
    ∀ (l : List α) (i : ℕ), l.set i (l.getD i d) = l := by
  intro l
  induction l with
  | nil => intro i; rfl
  | cons a t ih =>
    intro i
    cases i with
    | zero => rfl
    | succ j =>
      have h := ih j
      simp only [List.getD, List.get?_eq_getElem?] at h ⊢
      simp [List.set, h]

theorem colIdx_lt_length :
    ∀ (cols : List String) (c : String) (i : ℕ),
      colIdx cols c = some i → i < cols.length := by
  intro cols
  induction cols with
  | nil => intro c i h; simp [colIdx] at h
  | cons k t ih =>
    intro c i h
    by_cases hk : k = c
    · simp [colIdx, hk] at h
      simp only [List.length_cons]
      omega
    · simp [colIdx, hk] at h
      obtain ⟨j, hj, rfl⟩ := h
      have := ih c j hj
      simp only [List.length_cons]
      omega

theorem colIdx_get :
    ∀ (cols : List String) (c : String) (i : ℕ),
      colIdx cols c = some i → cols.getD i "" = c := by
  intro cols
  induction cols with
  | nil => intro c i h; simp [colIdx] at h
  | cons k t ih =>
    intro c i h
    by_cases hk : k = c
    · simp [colIdx, hk] at h
      subst h
      simpa using hk
    · simp [colIdx, hk] at h
      obtain ⟨j, hj, rfl⟩ := h
      simpa using ih c j hj

theorem colIdx_inj {cols : List String} {a b : String} {i : ℕ}
    (ha : colIdx cols a = some i) (hb : colIdx cols b = some i) : a = b := by
  have h1 := colIdx_get cols a i ha
  have h2 := colIdx_get cols b i hb
  rw [← h1, ← h2]

theorem colIdx_append_left :
    ∀ (cols l : List String) (c : String) (i : ℕ),
      colIdx cols c = some i → colIdx (cols ++ l) c = some i := by
  intro cols
  induction cols with
  | nil => intro l c i h; simp [colIdx] at h
  | cons k t ih =>
    intro l c i h
    by_cases hk : k = c
    · simp [colIdx, hk] at h ⊢
      omega
    · simp [colIdx, hk] at h ⊢
      obtain ⟨j, hj, rfl⟩ := h
      exact ⟨j, ih l c j hj, rfl⟩

theorem colIdx_append_self (cols : List String) (c : String)
    (h : colIdx cols c = none) : colIdx (cols ++ [c]) c = some cols.length := by
  induction cols with
  | nil => simp [colIdx]
  | cons k t ih =>
    by_cases hk : k = c
    · simp [colIdx, hk] at h
    · simp only [List.cons_append, colIdx, if_neg hk]
      simp only [colIdx, if_neg hk] at h
      rw [Option.map_eq_none'] at h
      have h2 := ih h
      simp [List.append_eq, h2, List.length_cons]

theorem hasCol_iff_mem (df : DF) (c : String) :
    df.hasCol c = true ↔ ∃ i, colIdx df.cols c = some i := by
  unfold DF.hasCol
  cases h : colIdx df.cols c <;> simp [Option.isSome, h]

/-- `cellAt` only inspects the column list. -/
theorem cellAt_congr {df df' : DF} (h : df.cols = df'.cols) (c : String)
    (r : List Cell) : cellAt df c r = cellAt df' c r := by
  unfold cellAt
  rw [h]

@[simp] theorem filterRows_cols (df : DF) (p : List Cell → Bool) :
    (df.filterRows p).cols = df.cols := rfl

@[simp] theorem mapCol_cols (df : DF) (c : String) (f : Cell → Cell) :
    (df.mapCol c f).cols = df.cols := by
  unfold DF.mapCol
  cases h : colIdx df.cols c <;> rfl

theorem cleanTextCols_cols (df : DF) : (cleanTextCols df).cols = df.cols := by
  unfold cleanTextCols
  generalize TEXT_COLS = ls
  induction ls generalizing df with
  | nil => rfl
  | cons a t ih =>
    simp only [List.foldl_cons]
    by_cases h : df.hasCol a = true <;> simp [h, ih]

theorem cleanBrand_cols (df : DF) : (cleanBrand df).cols = df.cols := by
  unfold cleanBrand
  by_cases h : df.hasCol "MARCA" = true <;> simp [h]

theorem cleanNumCols_cols (df : DF) : (cleanNumCols df).cols = df.cols := by
  unfold cleanNumCols
  generalize NUM_COLS = ls
  induction ls generalizing df with
  | nil => rfl
  | cons a t ih =>
    simp only [List.foldl_cons]
    by_cases h : df.hasCol a = true <;> simp [h, ih]

theorem canonicalize_cols (df : DF) :
    (canonicalize_columns df).cols = df.cols.map canonName := rfl

theorem addCol_cols_cases (df : DF) (c : String) (f : List Cell → Cell) :
    (df.addCol c f).cols = df.cols ∨ (df.addCol c f).cols = df.cols ++ [c] := by
  unfold DF.addCol
  cases h : colIdx df.cols c
  · right; rfl
  · left; rfl

theorem hasCol_of_cols_append {df df' : DF} {l : List String}
    (h : df'.cols = df.cols ++ l) (c : String) (hc : df.hasCol c = true) :
    df'.hasCol c = true := by
  rw [hasCol_iff_mem] at hc ⊢
  obtain ⟨i, hi⟩ := hc
  exact ⟨i, by rw [h]; exact colIdx_append_left _ _ _ _ hi⟩

theorem addCol_hasCol (df : DF) (c nc : String) (f : List Cell → Cell)
    (h : df.hasCol c = true) : (df.addCol nc f).hasCol c = true := by
  rcases addCol_cols_cases df nc f with hh | hh
  · unfold DF.hasCol
    rw [hh]
    exact h
  · exact hasCol_of_cols_append hh c h

theorem addCol_hasCol_self (df : DF) (c : String) (f : List Cell → Cell) :
    (df.addCol c f).hasCol c = true := by
  unfold DF.addCol
  cases h : colIdx df.cols c
  · simp only [DF.hasCol, colIdx_append_self df.cols c h, Option.isSome]
  · simp only [DF.hasCol, h, Option.isSome]

theorem dateStage_hasCol (df : DF) (c : String) (h : df.hasCol c = true) :
    (dateStage df).1.hasCol c = true := by
  unfold dateStage
  by_cases hf : df.hasCol "FECHA" = true
  · simp only [hf, if_true]
    apply addCol_hasCol
    apply addCol_hasCol
    show (DF.filterRows _ _).hasCol c = true
    unfold DF.hasCol at h ⊢
    simpa using h
  · simp only [hf, if_false]
    exact h

theorem unitStage_hasCol (df : DF) (c : String) (h : df.hasCol c = true) :
    (unitStage df).hasCol c = true := by
  unfold unitStage
  by_cases h1 : (df.hasCol "VALOR US$ CIF" && df.hasCol "CANTIDAD") = true
  all_goals by_cases h2 : True
  all_goals simp only [h1, if_true, if_false, Bool.false_eq_true]
  all_goals split
  all_goals first
    | exact addCol_hasCol _ _ _ _ (addCol_hasCol _ _ _ _ h)
    | exact addCol_hasCol _ _ _ _ h
    | exact h

theorem WF_canonicalize {df : DF} (h : df.WF) : (canonicalize_columns df).WF := by
  intro r hr
  show r.length = (df.cols.map canonName).length
  rw [List.length_map]
  exact h r hr

theorem WF_mapCol {df : DF} (h : df.WF) (c : String) (f : Cell → Cell) :
    (df.mapCol c f).WF := by
  unfold DF.mapCol
  cases hc : colIdx df.cols c
  · exact h
  · intro r hr
    simp only [List.mem_map] at hr
    obtain ⟨r0, hr0, rfl⟩ := hr
    simpa using h r0 hr0

theorem WF_filterRows {df : DF} (h : df.WF) (p : List Cell → Bool) :
    (df.filterRows p).WF := by
  intro r hr
  exact h r (List.mem_of_mem_filter hr)

theorem WF_addCol {df : DF} (h : df.WF) (c : String) (f : List Cell → Cell) :
    (df.addCol c f).WF := by
  unfold DF.addCol
  cases hc : colIdx df.cols c <;>
    intro r hr <;> simp only [List.mem_map] at hr <;>
    obtain ⟨r0, hr0, rfl⟩ := hr <;> simp [h r0 hr0]

theorem WF_cleanTextCols {df : DF} (h : df.WF) : (cleanTextCols df).WF := by
  unfold cleanTextCols
  generalize TEXT_COLS = ls
  induction ls generalizing df with
  | nil => exact h
  | cons a t ih =>
    simp only [List.foldl_cons]
    split
    · exact ih (WF_mapCol h a _)
    · exact ih h

theorem WF_cleanBrand {df : DF} (h : df.WF) : (cleanBrand df).WF := by
  unfold cleanBrand
  split
  · exact WF_mapCol h _ _
  · exact h

theorem WF_cleanNumCols {df : DF} (h : df.WF) : (cleanNumCols df).WF := by
  unfold cleanNumCols
  generalize NUM_COLS = ls
  induction ls generalizing df with
  | nil => exact h
  | cons a t ih =>
    simp only [List.foldl_cons]
    split
    · exact ih (WF_mapCol h a _)
    · exact ih h

theorem WF_dateStage {df : DF} (h : df.WF) : (dateStage df).1.WF := by
  unfold dateStage
  split
  · exact WF_addCol (WF_addCol (WF_filterRows (WF_mapCol h _ _) _) _ _) _ _
  · exact h

theorem WF_unitStage {df : DF} (h : df.WF) : (unitStage df).WF := by
  unfold unitStage
  dsimp only
  split <;> split <;>
    first
      | exact WF_addCol (WF_addCol h _ _) _ _
      | exact WF_addCol h _ _
      | exact h

theorem WF_qtyStage {df : DF} (h : df.WF) : (qtyStage df).WF := by
  unfold qtyStage
  split
  · exact WF_filterRows h _
  · exact h

theorem WF_etl_clean {df : DF} (h : df.WF) : (etl_clean df).1.WF := by
  unfold etl_clean
  dsimp only
  exact WF_qtyStage (WF_unitStage (WF_dateStage (WF_cleanNumCols (WF_cleanBrand
    (WF_cleanTextCols (WF_canonicalize h))))))

theorem list_getD_set_self {α : Type} (d a : α) :
    ∀ (l : List α) (i : ℕ), i < l.length → (l.set i a).getD i d = a := by
  intro l
  induction l with
  | nil => intro i h; simp at h
  | cons x t ih =>
    intro i h
    cases i with
    | zero => rfl
    | succ j =>
      simp only [List.length_cons] at h
      have := ih j (by omega)
      simpa [List.set, List.getD] using this

theorem list_getD_set_ne {α : Type} (d a : α) :
    ∀ (l : List α) (i j : ℕ), i ≠ j → (l.set i a).getD j d = l.getD j d := by
  intro l
  induction l with
  | nil => intro i j h; rfl
  | cons x t ih =>
    intro i j h
    cases i with
    | zero =>
      cases j with
      | zero => exact absurd rfl h
      | succ k => rfl
    | succ i' =>
      cases j with
      | zero => rfl
      | succ k =>
        have := ih i' k (by omega)
        simpa [List.set, List.getD] using this

theorem list_getD_append_self {α : Type} (d a : α) :
    ∀ (l : List α), ((l ++ [a]).getD l.length d) = a := by
  intro l
  induction l with
  | nil => rfl
  | cons x t ih => simp only [List.cons_append, List.length_cons, List.getD_cons_succ]; exact ih

theorem list_getD_append_lt {α : Type} (d : α) (l' : List α) :
    ∀ (l : List α) (j : ℕ), j < l.length → (l ++ l').getD j d = l.getD j d := by
  intro l
  induction l with
  | nil => intro j h; simp at h
  | cons x t ih =>
    intro j h
    cases j with
    | zero => rfl
    | succ k =>
      simp only [List.length_cons] at h
      have := ih k (by omega)
      simpa [List.getD] using this

theorem colIdx_append_none (cols : List String) (c c' : String)
    (h : colIdx cols c' = none) (hne : c' ≠ c) : colIdx (cols ++ [c]) c' = none := by
  induction cols with
  | nil =>
    simp only [List.nil_append, colIdx, Option.map_eq_none']
    rw [if_neg (fun hcc => hne hcc.symm)]
    rfl
  | cons k t ih =>
    by_cases hk : k = c'
    · simp [colIdx, hk] at h
    · simp only [colIdx, if_neg hk, Option.map_eq_none'] at h
      simp only [List.cons_append, colIdx, if_neg hk, Option.map_eq_none']
      exact ih h

theorem list_map_id_of {α : Type} (f : α → α) :
    ∀ (l : List α), (∀ x ∈ l, f x = x) → l.map f = l := by
  intro l
  induction l with
  | nil => intro h; rfl
  | cons a t ih =>
    intro h
    simp only [List.map_cons]
    rw [h a (by simp), ih (fun x hx => h x (by simp [hx]))]

/-- The cells of a row of `addCol`: the new column holds the computed
value, every other column reads as in the source row. -/
theorem addCol_rows_char (df : DF) (c : String) (f : List Cell → Cell) (hwf : df.WF) :
    ∀ r' ∈ (df.addCol c f).rows, ∃ r ∈ df.rows,
      cellAt (df.addCol c f) c r' = f r ∧
      (∀ c', c' ≠ c → cellAt (df.addCol c f) c' r' = cellAt df c' r) := by
  intro r' hr'
  unfold DF.addCol at hr' ⊢
  cases hc : colIdx df.cols c with
  | some i =>
    simp only [hc, List.mem_map] at hr'
    obtain ⟨r, hr, rfl⟩ := hr'
    refine ⟨r, hr, ?_, ?_⟩
    · show cellAt { cols := df.cols, rows := _ } c _ = f r
      unfold cellAt
      simp only [hc]
      exact list_getD_set_self _ _ r i ((hwf r hr) ▸ colIdx_lt_length _ _ _ hc)
    · intro c' hne
      show cellAt { cols := df.cols, rows := _ } c' _ = cellAt df c' r
      unfold cellAt
      cases hc' : colIdx df.cols c' with
      | some j =>
        have hij : i ≠ j := fun hij => hne (colIdx_inj (hij ▸ hc) hc').symm
        exact list_getD_set_ne _ _ r i j hij
      | none => rfl
  | none =>
    simp only [hc, List.mem_map] at hr'
    obtain ⟨r, hr, rfl⟩ := hr'
    refine ⟨r, hr, ?_, ?_⟩
    · show cellAt { cols := df.cols ++ [c], rows := _ } c _ = f r
      unfold cellAt
      simp only [colIdx_append_self df.cols c hc]
      rw [← hwf r hr]
      exact list_getD_append_self _ _ r
    · intro c' hne
      show cellAt { cols := df.cols ++ [c], rows := _ } c' _ = cellAt df c' r
      unfold cellAt
      cases hc' : colIdx df.cols c' with
      | some j =>
        simp only [colIdx_append_left df.cols [c] c' j hc']
        exact list_getD_append_lt _ _ r j ((hwf r hr) ▸ colIdx_lt_length _ _ _ hc')
      | none =>
        simp only [colIdx_append_none df.cols c c' hc' hne]

/-- The cells of a row of `mapCol`: the mapped column holds `f` of the
source cell, every other column is untouched. -/
theorem mapCol_rows_char (df : DF) (c : String) (f : Cell → Cell) (hwf : df.WF) :
    ∀ r' ∈ (df.mapCol c f).rows, ∃ r ∈ df.rows,
      (df.hasCol c = true → cellAt (df.mapCol c f) c r' = f (cellAt df c r)) ∧
      (∀ c', c' ≠ c → cellAt (df.mapCol c f) c' r' = cellAt df c' r) := by
  intro r' hr'
  unfold DF.mapCol at hr' ⊢
  cases hc : colIdx df.cols c with
  | some i =>
    simp only [hc, List.mem_map] at hr'
    obtain ⟨r, hr, rfl⟩ := hr'
    refine ⟨r, hr, ?_, ?_⟩
    · intro _
      show cellAt { cols := df.cols, rows := _ } c _ = _
      unfold cellAt
      simp only [hc]
      rw [list_getD_set_self _ _ r i ((hwf r hr) ▸ colIdx_lt_length _ _ _ hc)]
    · intro c' hne
      show cellAt { cols := df.cols, rows := _ } c' _ = cellAt df c' r
      unfold cellAt
      cases hc' : colIdx df.cols c' with
      | some j =>
        have hij : i ≠ j := fun hij => hne (colIdx_inj (hij ▸ hc) hc').symm
        exact list_getD_set_ne _ _ r i j hij
      | none => rfl
  | none =>
    simp only [hc] at hr'
    refine ⟨r', hr', ?_, ?_⟩
    · intro hcol
      rw [hasCol_iff_mem] at hcol
      obtain ⟨i, hi⟩ := hcol
      rw [hi] at hc
      exact absurd hc (by simp)
    · intro c' _
      simp only [hc]

theorem mapCol_id (df : DF) (c : String) (f : Cell → Cell)
    (h : ∀ r ∈ df.rows, f (cellAt df c r) = cellAt df c r) : df.mapCol c f = df := by
  unfold DF.mapCol
  cases hc : colIdx df.cols c with
  | none => rfl
  | some i =>
    have : df.rows.map (fun r => r.set i (f (r.getD i Cell.pynone))) = df.rows := by
      apply list_map_id_of
      intro r hr
      have hcell : cellAt df c r = r.getD i Cell.pynone := by
        unfold cellAt
        simp [hc]
      rw [← hcell, h r hr, hcell]
      exact list_set_getD_self Cell.pynone r i
    dsimp only
    rw [this]

theorem addCol_id (df : DF) (c : String) (f : List Cell → Cell) (i : ℕ)
    (hc : colIdx df.cols c = some i)
    (h : ∀ r ∈ df.rows, f r = r.getD i Cell.pynone) : df.addCol c f = df := by
  unfold DF.addCol
  rw [hc]
  dsimp only
  have : df.rows.map (fun r => r.set i (f r)) = df.rows := by
    apply list_map_id_of
    intro r hr
    rw [h r hr]
    exact list_set_getD_self Cell.pynone r i
  rw [this]

theorem filterRows_id (df : DF) (p : List Cell → Bool)
    (h : ∀ r ∈ df.rows, p r = true) : df.filterRows p = df := by
  unfold DF.filterRows
  rw [List.filter_eq_self.mpr h]

/-! ## Claim C6 and C10: behaviour of the numeric coercion -/

theorem rmJunk_clean (l : List Char) :
    (rmJunk l).any (fun c => c = ',' || c = '$' || c = '₡' || isWsChar c) = false := by
  rw [List.any_eq_false]
  intro c hc
  have := List.of_mem_filter hc
  simpa using this

theorem mem_of_mem_rmThouDotsGo :
    ∀ (prev : Option Char) (l : List Char) (c : Char),
      c ∈ rmThouDotsGo prev l → c ∈ l := by
  intro prev l
  induction l generalizing prev with
  | nil => intro c h; simp [rmThouDotsGo] at h
  | cons a t ih =>
    intro c h
    unfold rmThouDotsGo at h
    split at h
    · exact List.mem_cons_of_mem a (ih (some '.') c h)
    · rcases List.mem_cons.mp h with h | h
      · simp [h]
      · exact List.mem_cons_of_mem a (ih (some a) c h)

theorem commaToDot_id (l : List Char) (h : ∀ c ∈ l, ¬c = ',') :
    commaToDot l = l := by
  unfold commaToDot
  apply list_map_id_of
  intro c hc
  rw [if_neg (h c hc)]

/-- **C10.** In `to_number_series` the first substitution
(`[,$₡\s] → ""`) removes every comma, so the later comma-to-dot
replacement never changes any string; consequently a comma-decimal value
such as `"12,5"` parses to the concatenated digits 125, never to 12.5. -/
theorem C10_comma_step_dead :
    (∀ s : String, commaToDot (rmThouDots (rmJunk s.data)) = rmThouDots (rmJunk s.data)) ∧
    to_number_str "12,5" = 125 ∧ ¬to_number_str "12,5" = mkRat 25 2 := by
  refine ⟨?_, by decide, by decide⟩
  intro s
  apply commaToDot_id
  intro c hc
  have h1 : c ∈ rmJunk s.data := mem_of_mem_rmThouDotsGo none _ c hc
  have h2 := List.of_mem_filter h1
  simp only [Bool.not_eq_true', Bool.or_eq_false_iff, decide_eq_false_iff_not] at h2
  exact h2.1.1.1

/-- **C6.** The numeric coercion strips currency symbols, whitespace and
comma grouping characters, parses the remainder as a number, and coerces
unparseable or missing values to 0, never NaN: `"$12,345" ↦ 12345`,
`"" ↦ 0`, `"abc" ↦ 0`, `None ↦ 0`, and the result is always a finite
number. -/
theorem C6_numeric_coercion :
    to_number_str "$12,345" = 12345 ∧
    to_number_str "" = 0 ∧
    to_number_str "abc" = 0 ∧
    to_number_cell Cell.pynone = Cell.numv 0 ∧
    to_number_str " $ 1,234.50 " = mkRat 2469 2 ∧
    (∀ s : String,
      (rmJunk s.data).any (fun c => c = ',' || c = '$' || c = '₡' || isWsChar c) = false) ∧
    (∀ c : Cell, ∃ q : ℚ, to_number_cell c = Cell.numv q) := by
  refine ⟨by decide, by decide, by decide, by decide, by decide, ?_, ?_⟩
  · intro s
    exact rmJunk_clean s.data
  · intro c
    exact ⟨to_number_str (cellToStr c), rfl⟩

deriving instance DecidableEq for Except

/-! ## Claim C5: YTD with a null max date -/

/-- A table whose FECHA column is present but holds no parseable date:
`etl_clean` then returns an empty table and `max()` of the empty datetime
column, which is `NaT` — not Python `None`. -/
def noValidDateDF : DF :=
  ⟨["FECHA", "CANTIDAD"], [[Cell.str "garbage", Cell.str "1"]]⟩

/-- **C5.** When the date column is absent, `max_observed_date` is Python
`None` and YTD mode returns the table unchanged; but when the date column
is present and no row has a valid date, `etl_clean` returns `NaT`, which
passes the `is not None` guard, and `apply_time_view` raises
`ValueError` (from `int(NaT.month)`) instead of behaving like FULL —
contradicting the spec's "behave as FULL rather than failing". -/
theorem C5_nat_raises :
    (etl_clean noValidDateDF).2 = UltimaFecha.isNaT ∧
    apply_time_view (etl_clean noValidDateDF).1 (etl_clean noValidDateDF).2 "YTD" =
      Except.error "cannot convert float NaN to integer" ∧
    (∀ df : DF, apply_time_view df UltimaFecha.isNone "YTD" = Except.ok df) ∧
    (etl_clean (⟨["CANTIDAD"], [[Cell.str "1"]]⟩ : DF)).2 = UltimaFecha.isNone := by
  refine ⟨by decide, by decide, ?_, by decide⟩
  intro df
  rfl

/-! ## Claim C3: YTD filtering is uniform across years -/

/-- **C3.** With a `MES_NUM` column and a non-null `max_observed_date`,
YTD mode keeps exactly the rows with `MES_NUM ≤ max_observed_date.month`
— uniformly for every year: each YTD row of a year is a FULL row of that
year, and the YTD row count of every year is at most its FULL count
(FULL mode returning the table unchanged). -/
theorem C3_ytd_uniform (df : DF) (d : PDate) (hm : df.hasCol "MES_NUM" = true) :
    apply_time_view df (UltimaFecha.ts d) "YTD" =
      Except.ok (df.filterRows (fun r => cellLeNat (cellAt df "MES_NUM" r) d.month)) ∧
    apply_time_view df (UltimaFecha.ts d) "FULL" = Except.ok df ∧
    (∀ r, r ∈ (df.filterRows (fun r => cellLeNat (cellAt df "MES_NUM" r) d.month)).rows ↔
        r ∈ df.rows ∧ cellLeNat (cellAt df "MES_NUM" r) d.month = true) ∧
    (∀ y : ℤ,
      ((df.filterRows (fun r => cellLeNat (cellAt df "MES_NUM" r) d.month)).rows.filter
          (fun r => cellEqInt (cellAt df "AÑO" r) y)) ⊆
        df.rows.filter (fun r => cellEqInt (cellAt df "AÑO" r) y) ∧
      ((df.filterRows (fun r => cellLeNat (cellAt df "MES_NUM" r) d.month)).rows.filter
          (fun r => cellEqInt (cellAt df "AÑO" r) y)).length ≤
        (df.rows.filter (fun r => cellEqInt (cellAt df "AÑO" r) y)).length) := by
  refine ⟨?_, rfl, ?_, ?_⟩
  · unfold apply_time_view
    simp [hm]
  · intro r
    unfold DF.filterRows
    simp [List.mem_filter]
  · intro y
    constructor
    · intro r hr
      unfold DF.filterRows at hr
      rw [List.mem_filter] at hr ⊢
      exact ⟨List.mem_of_mem_filter hr.1, hr.2⟩
    · unfold DF.filterRows
      rw [List.filter_comm]
      exact List.length_filter_le _ _

/-- Witness for C3 at a concrete table: `max_observed_date` 2024-08-15
cuts every year at month 8, including 2023. -/
theorem C3_ytd_uniform_witness :
    apply_time_view
      (⟨["AÑO", "MES_NUM"],
        [[Cell.intv 2023, Cell.intv 3], [Cell.intv 2023, Cell.intv 9],
         [Cell.intv 2024, Cell.intv 8]]⟩ : DF)
      (UltimaFecha.ts ⟨2024, 8, 15⟩) "YTD" =
    Except.ok ⟨["AÑO", "MES_NUM"],
        [[Cell.intv 2023, Cell.intv 3], [Cell.intv 2024, Cell.intv 8]]⟩ := by
  rw [(C3_ytd_uniform
    (⟨["AÑO", "MES_NUM"],
      [[Cell.intv 2023, Cell.intv 3], [Cell.intv 2023, Cell.intv 9],
       [Cell.intv 2024, Cell.intv 8]]⟩ : DF)
    ⟨2024, 8, 15⟩ (by decide)).1]
  decide

/-! ## Claim C9: top-N shares sum to 100 -/

theorem list_sum_map_mul (l : List ℚ) (c : ℚ) :
    (l.map (fun v => v * c)).sum = l.sum * c := by
  induction l with
  | nil => simp
  | cons a t ih => simp [ih, add_mul]

/-- **C9.** `top_share` groups by the dimension, sums quantity, sorts
descending, keeps the top n rows (at most n, in descending volume order),
and computes shares against the displayed top-n subtotal: whenever that
subtotal is positive the shares of the returned rows sum to exactly 100 —
for any n, larger or smaller than the number of distinct categories. -/
theorem C9_top_share_sums_100 (df : DF) (dim : String) (n : ℕ)
    (hpos : 0 < ((top_share df dim n).map (fun r => r.vol)).sum) :
    ((top_share df dim n).map (fun r => r.share)).sum = 100 ∧
    (top_share df dim n).length ≤ n ∧
    List.Sorted volDesc ((top_share df dim n).map (fun r => (r.key, r.vol))) := by
  unfold top_share at hpos ⊢
  set g := (groupKeys df dim).map (fun k => (k, sumQ df dim k "CANTIDAD")) with hg
  set t := (List.insertionSort volDesc g).take n with ht
  have hvols : (t.map (fun x =>
      ({ key := x.1, vol := x.2,
         share := if (t.map (fun x => x.2)).sum ≠ 0 then x.2 / (t.map (fun x => x.2)).sum * 100 else 0 } : TopRow))).map
        (fun r => r.vol) = t.map (fun x => x.2) := by
    simp [List.map_map]
  rw [hvols] at hpos
  set D := (t.map (fun x => x.2)).sum with hD
  have hDne : D ≠ 0 := ne_of_gt hpos
  refine ⟨?_, ?_, ?_⟩
  · have hshares : (t.map (fun x =>
        ({ key := x.1, vol := x.2,
           share := if D ≠ 0 then x.2 / D * 100 else 0 } : TopRow))).map (fun r => r.share) =
        (t.map (fun x => x.2)).map (fun v => v * (100 / D)) := by
      simp only [List.map_map]
      apply List.map_congr_left
      intro x _
      simp only [Function.comp]
      rw [if_pos hDne]
      ring
    rw [hshares, list_sum_map_mul, ← hD]
    field_simp
  · rw [List.length_map]
    exact List.length_take_le _ _
  · have hmapback : (t.map (fun x =>
        ({ key := x.1, vol := x.2,
           share := if D ≠ 0 then x.2 / D * 100 else 0 } : TopRow))).map
          (fun r => (r.key, r.vol)) = t := by
      simp only [List.map_map]
      apply list_map_id_of
      intro x hx
      rfl
    rw [hmapback, ht]
    have hsorted : List.Sorted volDesc (List.insertionSort volDesc g) :=
      List.sorted_insertionSort volDesc g
    exact List.Pairwise.sublist (List.take_sublist n _) hsorted

/-- Witness for C9: three brands, n = 2 — the two kept shares sum to 100
relative to the top-2 subtotal. -/
theorem C9_top_share_sums_100_witness :
    ((top_share
        (⟨["MARCA", "CANTIDAD"],
          [[Cell.str "A", Cell.numv 5], [Cell.str "B", Cell.numv 3],
           [Cell.str "C", Cell.numv 2]]⟩ : DF) "MARCA" 2).map
      (fun r => r.share)).sum = 100 :=
  (C9_top_share_sums_100
    (⟨["MARCA", "CANTIDAD"],
      [[Cell.str "A", Cell.numv 5], [Cell.str "B", Cell.numv 3],
       [Cell.str "C", Cell.numv 2]]⟩ : DF) "MARCA" 2 (by decide)).1

/-! ## Claim C8: which slices feed `yoy_table` -/

/-- **C8.** With at least two selected years, `yoy_table` depends on its
inputs only through the `current_year = max(selected_years)` slice of the
*windowed* table and the `current_year - 1` slice of the *full* table —
and only through the maximum of the selected years, so the previous year
is always `max - 1` whether or not it is selected.  Consequently the
output equals the output for the two-year selection
`[max - 1, max]`. -/
theorem C8_yoy_slicing (m v m' v' : DF) (dim : String) (ys ys' : List ℤ)
    (h2 : 2 ≤ ys.length) (h2' : 2 ≤ ys'.length)
    (hmax : maxSelYear ys' = maxSelYear ys)
    (hv : sliceYear v' (maxSelYear ys) = sliceYear v (maxSelYear ys))
    (hm : sliceYear m' (maxSelYear ys - 1) = sliceYear m (maxSelYear ys - 1)) :
    yoy_table m' v' dim ys' = yoy_table m v dim ys ∧
    yoy_table m v dim ys = yoy_table m v dim [maxSelYear ys - 1, maxSelYear ys] := by
  have core : ∀ (m2 v2 : DF) (ys2 : List ℤ), 2 ≤ ys2.length →
      maxSelYear ys2 = maxSelYear ys →
      sliceYear v2 (maxSelYear ys) = sliceYear v (maxSelYear ys) →
      sliceYear m2 (maxSelYear ys - 1) = sliceYear m (maxSelYear ys - 1) →
      yoy_table m2 v2 dim ys2 = yoy_table m v dim ys := by
    intro m2 v2 ys2 hl hmx hsv hsm
    unfold yoy_table
    rw [if_neg (show ¬(ys2.length < 2) by omega),
      if_neg (show ¬(ys.length < 2) by omega)]
    dsimp only
    rw [hmx, hsv, hsm]
  refine ⟨core m' v' ys' h2' hmax hv hm, ?_⟩
  have hm2 : maxSelYear [maxSelYear ys - 1, maxSelYear ys] = maxSelYear ys := by
    show (List.max? _).getD 0 = maxSelYear ys
    show (some (List.foldl max (maxSelYear ys - 1) [maxSelYear ys])).getD 0 = maxSelYear ys
    simp only [List.foldl_cons, List.foldl_nil, Option.getD_some]
    omega
  exact (core m v [maxSelYear ys - 1, maxSelYear ys] (by simp) hm2 rfl rfl).symm

/-- Witness for C8: the previous-year slice comes from the full table and
the current-year slice from the windowed table, and only `max` of the
selection matters — evaluated on concrete tables where every other part
of the inputs differs. -/
theorem C8_yoy_slicing_witness :
    yoy_table
      (⟨["AÑO", "MARCA", "CANTIDAD", "VALOR US$ CIF"],
        [[Cell.intv 2023, Cell.str "T", Cell.numv 7, Cell.numv 3],
         [Cell.intv 2020, Cell.str "X", Cell.numv 9, Cell.numv 9]]⟩ : DF)
      (⟨["AÑO", "MARCA", "CANTIDAD", "VALOR US$ CIF"],
        [[Cell.intv 2024, Cell.str "B", Cell.numv 5, Cell.numv 2],
         [Cell.intv 2019, Cell.str "Z", Cell.numv 1, Cell.numv 1]]⟩ : DF)
      "MARCA" [2022, 2024] =
    yoy_table
      (⟨["AÑO", "MARCA", "CANTIDAD", "VALOR US$ CIF"],
        [[Cell.intv 2023, Cell.str "T", Cell.numv 7, Cell.numv 3]]⟩ : DF)
      (⟨["AÑO", "MARCA", "CANTIDAD", "VALOR US$ CIF"],
        [[Cell.intv 2024, Cell.str "B", Cell.numv 5, Cell.numv 2]]⟩ : DF)
      "MARCA" [2023, 2024] :=
  (C8_yoy_slicing
    (⟨["AÑO", "MARCA", "CANTIDAD", "VALOR US$ CIF"],
      [[Cell.intv 2023, Cell.str "T", Cell.numv 7, Cell.numv 3]]⟩ : DF)
    (⟨["AÑO", "MARCA", "CANTIDAD", "VALOR US$ CIF"],
      [[Cell.intv 2024, Cell.str "B", Cell.numv 5, Cell.numv 2]]⟩ : DF)
    (⟨["AÑO", "MARCA", "CANTIDAD", "VALOR US$ CIF"],
      [[Cell.intv 2023, Cell.str "T", Cell.numv 7, Cell.numv 3],
       [Cell.intv 2020, Cell.str "X", Cell.numv 9, Cell.numv 9]]⟩ : DF)
    (⟨["AÑO", "MARCA", "CANTIDAD", "VALOR US$ CIF"],
      [[Cell.intv 2024, Cell.str "B", Cell.numv 5, Cell.numv 2],
       [Cell.intv 2019, Cell.str "Z", Cell.numv 1, Cell.numv 1]]⟩ : DF)
    "MARCA" [2023, 2024] [2022, 2024]
    (by decide) (by decide) (by decide) (by decide) (by decide)).1

/-! ## Claim C2: unit metrics are finite and zero-guarded -/

@[simp] theorem filterRows_rows (df : DF) (p : List Cell → Bool) :
    (df.filterRows p).rows = df.rows.filter p := rfl

theorem hasCol_congr {df df' : DF} (h : df'.cols = df.cols) (c : String) :
    df'.hasCol c = df.hasCol c := by
  unfold DF.hasCol
  rw [h]

theorem addCol_hasCol_ne (df : DF) (c c' : String) (f : List Cell → Cell)
    (hne : c' ≠ c) : (df.addCol c f).hasCol c' = df.hasCol c' := by
  unfold DF.addCol DF.hasCol
  cases hc : colIdx df.cols c
  · show (colIdx (df.cols ++ [c]) c').isSome = (colIdx df.cols c').isSome
    cases hc' : colIdx df.cols c' with
    | some j => rw [colIdx_append_left _ _ _ _ hc']
    | none => rw [colIdx_append_none _ _ _ hc' hne]
  · rfl

theorem hasCol_textBrandNum (df : DF) (c : String) :
    (cleanNumCols (cleanBrand (cleanTextCols df))).hasCol c = df.hasCol c := by
  unfold DF.hasCol
  rw [cleanNumCols_cols, cleanBrand_cols, cleanTextCols_cols]

/-- `cellDiv` only produces finite floats, `NaN` or `±inf`. -/
theorem cellDiv_shape (a b : Cell) :
    (∃ q : ℚ, cellDiv a b = Cell.numv q) ∨ cellDiv a b = Cell.nan ∨
      cellDiv a b = Cell.inf ∨ cellDiv a b = Cell.ninf := by
  unfold cellDiv
  cases ha : cellQ? a with
  | none => cases hb : cellQ? b <;> simp
  | some x =>
    cases hb : cellQ? b with
    | none => simp
    | some y =>
      dsimp only
      by_cases hy : y = 0
      · rw [if_pos hy]
        by_cases hx : x = 0
        · rw [if_pos hx]; simp
        · rw [if_neg hx]
          by_cases hx0 : 0 < x
          · rw [if_pos hx0]; simp
          · rw [if_neg hx0]; simp
      · rw [if_neg hy]
        exact Or.inl ⟨x / y, rfl⟩

/-- The derived unit-metric formula always produces a finite float. -/
theorem unit_formula_finite (a b : Cell) :
    ∃ q : ℚ, fillna0 (replaceInfNan (cellDiv a (replace0nan b))) = Cell.numv q := by
  rcases cellDiv_shape a (replace0nan b) with ⟨q, h⟩ | h | h | h <;> rw [h] <;>
    first
      | exact ⟨q, rfl⟩
      | exact ⟨0, rfl⟩

/-- A zero quantity forces a zero unit metric. -/
theorem unit_formula_zero (a : Cell) :
    fillna0 (replaceInfNan (cellDiv a (replace0nan (Cell.numv 0)))) = Cell.numv 0 := by
  cases a <;> rfl

theorem qtyStage_pos (df : DF) (h : df.hasCol "CANTIDAD" = true) :
    qtyStage df = df.filterRows (fun r => cellGE0 (cellAt df "CANTIDAD" r)) := by
  unfold qtyStage
  rw [if_pos h]

theorem unitStage_pos (df : DF)
    (h : (df.hasCol "VALOR US$ CIF" && df.hasCol "CANTIDAD") = true) :
    unitStage df =
      (if ((df.addCol "CIF_UNITARIO" (fun r =>
              fillna0 (replaceInfNan (cellDiv (cellAt df "VALOR US$ CIF" r)
                (replace0nan (cellAt df "CANTIDAD" r)))))).hasCol "FLETE" &&
           (df.addCol "CIF_UNITARIO" (fun r =>
              fillna0 (replaceInfNan (cellDiv (cellAt df "VALOR US$ CIF" r)
                (replace0nan (cellAt df "CANTIDAD" r)))))).hasCol "CANTIDAD") = true
       then
        (df.addCol "CIF_UNITARIO" (fun r =>
          fillna0 (replaceInfNan (cellDiv (cellAt df "VALOR US$ CIF" r)
            (replace0nan (cellAt df "CANTIDAD" r)))))).addCol "FLETE_UNITARIO"
          (fun r =>
            fillna0 (replaceInfNan (cellDiv
              (cellAt (df.addCol "CIF_UNITARIO" (fun r =>
                fillna0 (replaceInfNan (cellDiv (cellAt df "VALOR US$ CIF" r)
                  (replace0nan (cellAt df "CANTIDAD" r)))))) "FLETE" r)
              (replace0nan (cellAt (df.addCol "CIF_UNITARIO" (fun r =>
                fillna0 (replaceInfNan (cellDiv (cellAt df "VALOR US$ CIF" r)
                  (replace0nan (cellAt df "CANTIDAD" r)))))) "CANTIDAD" r)))))
       else
        df.addCol "CIF_UNITARIO" (fun r =>
          fillna0 (replaceInfNan (cellDiv (cellAt df "VALOR US$ CIF" r)
            (replace0nan (cellAt df "CANTIDAD" r)))))) := by
  unfold unitStage
  rw [if_pos h]

/-- **C2.** On the canonical table produced by `etl_clean` (for inputs
carrying the customs-value and quantity columns), the derived unit
metrics `CIF_UNITARIO` and `FLETE_UNITARIO` are always finite floats —
never NaN or ±inf — and rows whose `CANTIDAD` is 0 carry unit metrics
exactly 0. -/
theorem C2_unit_metrics (df : DF) (hwf : df.WF)
    (hv : (canonicalize_columns df).hasCol "VALOR US$ CIF" = true)
    (hc : (canonicalize_columns df).hasCol "CANTIDAD" = true) :
    ∀ r ∈ (etl_clean df).1.rows,
      ((∃ q : ℚ, cellAt (etl_clean df).1 "CIF_UNITARIO" r = Cell.numv q) ∧
       (cellAt (etl_clean df).1 "CANTIDAD" r = Cell.numv 0 →
          cellAt (etl_clean df).1 "CIF_UNITARIO" r = Cell.numv 0)) ∧
      ((canonicalize_columns df).hasCol "FLETE" = true →
       (∃ q : ℚ, cellAt (etl_clean df).1 "FLETE_UNITARIO" r = Cell.numv q) ∧
       (cellAt (etl_clean df).1 "CANTIDAD" r = Cell.numv 0 →
          cellAt (etl_clean df).1 "FLETE_UNITARIO" r = Cell.numv 0)) := by
  unfold etl_clean
  dsimp only
  set d5 := (dateStage (cleanNumCols (cleanBrand (cleanTextCols
    (canonicalize_columns df))))).1 with hd5
  have hwf5 : d5.WF :=
    WF_dateStage (WF_cleanNumCols (WF_cleanBrand (WF_cleanTextCols
      (WF_canonicalize hwf))))
  have hv5 : d5.hasCol "VALOR US$ CIF" = true :=
    dateStage_hasCol _ _ ((hasCol_textBrandNum _ _).trans hv)
  have hc5 : d5.hasCol "CANTIDAD" = true :=
    dateStage_hasCol _ _ ((hasCol_textBrandNum _ _).trans hc)
  have hcond1 : (d5.hasCol "VALOR US$ CIF" && d5.hasCol "CANTIDAD") = true := by
    rw [hv5, hc5]; rfl
  rw [unitStage_pos d5 hcond1]
  set dU1 := d5.addCol "CIF_UNITARIO" (fun r =>
    fillna0 (replaceInfNan (cellDiv (cellAt d5 "VALOR US$ CIF" r)
      (replace0nan (cellAt d5 "CANTIDAD" r))))) with hdU1
  have hwfU1 : dU1.WF := WF_addCol hwf5 _ _
  have hflU1 : dU1.hasCol "FLETE" = d5.hasCol "FLETE" :=
    addCol_hasCol_ne d5 "CIF_UNITARIO" "FLETE" _ (by decide)
  have hcaU1 : dU1.hasCol "CANTIDAD" = true := by
    rw [addCol_hasCol_ne d5 "CIF_UNITARIO" "CANTIDAD" _ (by decide)]
    exact hc5
  intro r hr
  by_cases hfl : d5.hasCol "FLETE" = true
  · -- both unit metrics derived
    have hcond2 : (dU1.hasCol "FLETE" && dU1.hasCol "CANTIDAD") = true := by
      rw [hflU1, hcaU1, hfl]; rfl
    rw [if_pos hcond2] at hr ⊢
    set dU2 := dU1.addCol "FLETE_UNITARIO" (fun r =>
      fillna0 (replaceInfNan (cellDiv (cellAt dU1 "FLETE" r)
        (replace0nan (cellAt dU1 "CANTIDAD" r))))) with hdU2
    have hcaU2 : dU2.hasCol "CANTIDAD" = true := by
      rw [addCol_hasCol_ne dU1 "FLETE_UNITARIO" "CANTIDAD" _ (by decide)]
      exact hcaU1
    rw [qtyStage_pos dU2 hcaU2] at hr ⊢
    rw [filterRows_rows] at hr
    have hr2 : r ∈ dU2.rows := List.mem_of_mem_filter hr
    obtain ⟨r1, hr1, hval2, hoth2⟩ := addCol_rows_char dU1 "FLETE_UNITARIO" _ hwfU1 r hr2
    obtain ⟨r0, hr0, hval1, hoth1⟩ := addCol_rows_char d5 "CIF_UNITARIO" _ hwf5 r1 hr1
    have eCIF : cellAt dU2 "CIF_UNITARIO" r = cellAt dU1 "CIF_UNITARIO" r1 :=
      hoth2 "CIF_UNITARIO" (by decide)
    have eCANT : cellAt dU2 "CANTIDAD" r = cellAt d5 "CANTIDAD" r0 := by
      rw [hoth2 "CANTIDAD" (by decide), hoth1 "CANTIDAD" (by decide)]
    have eQC : ∀ c' : String, cellAt (dU2.filterRows
        (fun r => cellGE0 (cellAt dU2 "CANTIDAD" r))) c' r = cellAt dU2 c' r :=
      fun c' => cellAt_congr (filterRows_cols ..) c' r
    refine ⟨⟨?_, ?_⟩, fun _ => ⟨?_, ?_⟩⟩
    · rw [eQC, eCIF, hval1]
      exact unit_formula_finite _ _
    · intro h0
      rw [eQC, eCIF, hval1]
      rw [eQC, eCANT] at h0
      rw [h0]
      exact unit_formula_zero _
    · rw [eQC, hval2]
      exact unit_formula_finite _ _
    · intro h0
      rw [eQC, hval2]
      rw [eQC, eCANT] at h0
      have hz : cellAt dU1 "CANTIDAD" r1 = Cell.numv 0 := by
        rw [hoth1 "CANTIDAD" (by decide)]
        exact h0
      rw [hz]
      exact unit_formula_zero _
  · -- FLETE absent: only CIF_UNITARIO derived
    have hcond2 : ¬(dU1.hasCol "FLETE" && dU1.hasCol "CANTIDAD") = true := by
      rw [hflU1, hcaU1]
      simp only [Bool.and_true]
      exact hfl
    rw [if_neg hcond2] at hr ⊢
    rw [qtyStage_pos dU1 hcaU1] at hr ⊢
    rw [filterRows_rows] at hr
    have hr2 : r ∈ dU1.rows := List.mem_of_mem_filter hr
    obtain ⟨r0, hr0, hval1, hoth1⟩ := addCol_rows_char d5 "CIF_UNITARIO" _ hwf5 r hr2
    have eQC : ∀ c' : String, cellAt (dU1.filterRows
        (fun r => cellGE0 (cellAt dU1 "CANTIDAD" r))) c' r = cellAt dU1 c' r :=
      fun c' => cellAt_congr (filterRows_cols ..) c' r
    have eCANT : cellAt dU1 "CANTIDAD" r = cellAt d5 "CANTIDAD" r0 :=
      hoth1 "CANTIDAD" (by decide)
    refine ⟨⟨?_, ?_⟩, fun hfl2 => ?_⟩
    · rw [eQC, hval1]
      exact unit_formula_finite _ _
    · intro h0
      rw [eQC, hval1]
      rw [eQC, eCANT] at h0
      rw [h0]
      exact unit_formula_zero _
    · exact absurd (dateStage_hasCol _ _ ((hasCol_textBrandNum _ _).trans hfl2)) hfl

/-- Concrete input for the C2 witness: a zero-quantity row with raw string
numerics and an aliased customs-value column name. -/
def c2df : DF :=
  ⟨["CIF", "CANTIDAD", "FLETE"], [[Cell.str "$100", Cell.str "0", Cell.str "10"]]⟩

/-- Witness for C2 at `c2df`: the derived metrics exist and both are
exactly 0 on its zero-quantity row. -/
theorem C2_unit_metrics_witness :
    cellAt (etl_clean c2df).1 "CIF_UNITARIO"
        [Cell.numv 100, Cell.numv 0, Cell.numv 10, Cell.numv 0, Cell.numv 0] = Cell.numv 0 ∧
    cellAt (etl_clean c2df).1 "FLETE_UNITARIO"
        [Cell.numv 100, Cell.numv 0, Cell.numv 10, Cell.numv 0, Cell.numv 0] = Cell.numv 0 := by
  have h := C2_unit_metrics c2df (by decide) (by decide) (by decide)
    [Cell.numv 100, Cell.numv 0, Cell.numv 10, Cell.numv 0, Cell.numv 0] (by decide)
  exact ⟨h.1.2 (by decide), (h.2 (by decide)).2 (by decide)⟩

/-! ## Claim C4: what `max_observed_date` ranges over -/

theorem etl_clean_snd (df : DF) :
    (etl_clean df).2 = (dateStage (cleanNumCols (cleanBrand (cleanTextCols
      (canonicalize_columns df))))).2 := by
  unfold etl_clean
  dsimp only

/-- The table over whose rows `ultima_fecha` is computed: dates parsed and
unparseable-date rows dropped, *before* the negative-quantity guardrail. -/
def parsedDateTable (df : DF) : DF :=
  let d4 := cleanNumCols (cleanBrand (cleanTextCols (canonicalize_columns df)))
  let d1 := d4.mapCol "FECHA" to_datetime_cell
  d1.filterRows (fun r => isDateCell (cellAt d1 "FECHA" r))

theorem pdMax_cases (a b : PDate) : pdMax a b = a ∨ pdMax a b = b := by
  unfold pdMax
  split
  · right; rfl
  · left; rfl

theorem pdMax_key_le (a b : PDate) :
    a.key ≤ (pdMax a b).key ∧ b.key ≤ (pdMax a b).key := by
  unfold pdMax
  split
  · exact ⟨by assumption, le_refl _⟩
  · exact ⟨le_refl _, le_of_not_le (by assumption)⟩

theorem foldl_pdMax_mem : ∀ (t : List PDate) (d : PDate), t.foldl pdMax d ∈ d :: t := by
  intro t
  induction t with
  | nil => intro d; simp
  | cons a t ih =>
    intro d
    simp only [List.foldl_cons]
    rcases List.mem_cons.mp (ih (pdMax d a)) with h | h
    · rw [h]
      rcases pdMax_cases d a with h2 | h2 <;> simp [h2]
    · simp [h]

theorem foldl_pdMax_ge : ∀ (t : List PDate) (d : PDate),
    ∀ x ∈ d :: t, x.key ≤ (t.foldl pdMax d).key := by
  intro t
  induction t with
  | nil => intro d x hx; simp at hx; simp [hx]
  | cons a t ih =>
    intro d x hx
    simp only [List.foldl_cons]
    rcases List.mem_cons.mp hx with h | h
    · subst h
      exact le_trans (pdMax_key_le x a).1 (ih (pdMax x a) _ (by simp))
    · rcases List.mem_cons.mp h with h2 | h2
      · subst h2
        exact le_trans (pdMax_key_le d x).2 (ih (pdMax d x) _ (by simp))
      · exact ih (pdMax d a) x (by simp [h2])

/-- A two-row table whose maximum date sits on a negative-quantity row:
`etl_clean` computes `ultima_fecha` before dropping that row. -/
def negQtyDF : DF :=
  ⟨["FECHA", "CANTIDAD"],
   [[Cell.date ⟨2024, 1, 1⟩, Cell.str "1"],
    [Cell.date ⟨2024, 6, 1⟩, Cell.str "-5"]]⟩

/-- **C4, counterexample.** The returned canonical table of `negQtyDF`
holds exactly one date, 2024-01-01 (the 2024-06-01 row is dropped by the
negative-quantity guardrail), yet the returned `max_observed_date` is
2024-06-01 — not the maximum date of the returned table, refuting the
claim as stated. -/
theorem C4_counterexample :
    (etl_clean negQtyDF).2 = UltimaFecha.ts ⟨2024, 6, 1⟩ ∧
    datesOf (etl_clean negQtyDF).1 = [⟨2024, 1, 1⟩] ∧
    ¬(etl_clean negQtyDF).2 = UltimaFecha.ts ⟨2024, 1, 1⟩ := by
  refine ⟨by decide, by decide, by decide⟩

/-- **C4, amended.** `max_observed_date` is the maximum date of the table
*after unparseable-date rows are dropped but before negative-quantity rows
are dropped*: Python `None` exactly when the date column is absent, `NaT`
when it is present but no date parses, and otherwise a date of that
intermediate table that bounds all its dates (its maximum). -/
theorem C4_amended (df : DF) :
    ((canonicalize_columns df).hasCol "FECHA" = false →
      (etl_clean df).2 = UltimaFecha.isNone) ∧
    ((canonicalize_columns df).hasCol "FECHA" = true →
      (datesOf (parsedDateTable df) = [] → (etl_clean df).2 = UltimaFecha.isNaT) ∧
      (∀ m : PDate, (etl_clean df).2 = UltimaFecha.ts m →
        m ∈ datesOf (parsedDateTable df) ∧
        ∀ d ∈ datesOf (parsedDateTable df), d.key ≤ m.key)) := by
  rw [etl_clean_snd]
  set d4 := cleanNumCols (cleanBrand (cleanTextCols (canonicalize_columns df))) with hd4
  have htr : d4.hasCol "FECHA" = (canonicalize_columns df).hasCol "FECHA" :=
    hasCol_textBrandNum _ _
  constructor
  · intro h
    unfold dateStage
    rw [htr, h]
    simp
  · intro h
    have h4 : d4.hasCol "FECHA" = true := htr.trans h
    have hstage : (dateStage d4).2 =
        (match datesOf (parsedDateTable df) with
         | [] => UltimaFecha.isNaT
         | d :: t => UltimaFecha.ts (t.foldl pdMax d)) := by
      unfold dateStage
      rw [if_pos h4]
      dsimp only
      unfold parsedDateTable
      dsimp only
    rw [hstage]
    cases hds : datesOf (parsedDateTable df) with
    | nil =>
      refine ⟨fun _ => rfl, fun m hm => ?_⟩
      simp at hm
    | cons d t =>
      refine ⟨fun hx => by simp at hx, fun m hm => ?_⟩
      simp only [UltimaFecha.ts.injEq] at hm
      subst hm
      exact ⟨foldl_pdMax_mem t d, foldl_pdMax_ge t d⟩

/-- Witness for C4 at `negQtyDF`: the returned max is attained on the
pre-guardrail table (which still holds the 2024-06-01 row) and bounds the
date of the surviving row. -/
theorem C4_amended_witness :
    (⟨2024, 6, 1⟩ : PDate) ∈ datesOf (parsedDateTable negQtyDF) ∧
    (⟨2024, 1, 1⟩ : PDate).key ≤ (⟨2024, 6, 1⟩ : PDate).key :=
  ⟨(((C4_amended negQtyDF).2 (by decide)).2 ⟨2024, 6, 1⟩ (by decide)).1,
   (((C4_amended negQtyDF).2 (by decide)).2 ⟨2024, 6, 1⟩ (by decide)).2
     ⟨2024, 1, 1⟩ (by decide)⟩

/-! ## Claim C7: YoY outer-join completeness -/

theorem grpOf_keys (df : DF) (dim : String) :
    (grpOf df dim).map GrpRow.key = groupKeys df dim := by
  unfold grpOf
  dsimp only
  rw [List.map_map]
  exact list_map_id_of _ _ (fun k _ => rfl)

theorem groupKeys_nodup (df : DF) (dim : String) : (groupKeys df dim).Nodup :=
  List.nodup_dedup _

theorem grpLookup_some {g : List GrpRow} {k : Cell} {y : GrpRow}
    (h : grpLookup g k = some y) : y ∈ g ∧ y.key = k := by
  refine ⟨List.mem_of_find?_eq_some h, ?_⟩
  have := List.find?_some h
  simpa using this

theorem grpLookup_none {g : List GrpRow} {k : Cell} (h : grpLookup g k = none) :
    ∀ y ∈ g, ¬y.key = k := by
  intro y hy
  have := List.find?_eq_none.mp h y hy
  simpa using this

theorem grpLookup_isSome_of_mem {g : List GrpRow} {k : Cell}
    (h : k ∈ g.map GrpRow.key) : (grpLookup g k).isSome = true := by
  rw [List.mem_map] at h
  obtain ⟨y, hy, rfl⟩ := h
  cases hl : grpLookup g y.key with
  | some _ => rfl
  | none => exact absurd rfl (grpLookup_none hl y hy)

theorem mergeYoY_cats (gc gp : List GrpRow) :
    (mergeYoY gc gp).map YoYRow.cat =
      gc.map GrpRow.key ++
        (gp.filter (fun y => (grpLookup gc y.key).isNone)).map GrpRow.key := by
  unfold mergeYoY
  rw [List.map_append, List.map_map, List.map_map]
  congr 1
  apply List.map_congr_left
  intro x _
  simp only [Function.comp]
  cases grpLookup gp x.key <;> rfl

theorem nodup_countP_one {α : Type} [DecidableEq α] :
    ∀ (l : List α) (c : α), l.Nodup → c ∈ l →
      l.countP (fun k => decide (k = c)) = 1 := by
  intro l
  induction l with
  | nil => intro c _ hc; simp at hc
  | cons a t ih =>
    intro c hnd hc
    rw [List.countP_cons]
    rcases List.mem_cons.mp hc with rfl | hct
    · have hnott : c ∉ t := (List.nodup_cons.mp hnd).1
      rw [List.countP_eq_zero.mpr (fun x hx => by
        simp only [decide_eq_true_eq]
        intro hxc
        exact hnott (hxc ▸ hx))]
      simp
    · have hne : ¬a = c := by
        intro h
        exact (List.nodup_cons.mp hnd).1 (h ▸ hct)
      rw [ih c (List.nodup_cons.mp hnd).2 hct]
      simp [hne]

theorem mergeYoY_count_one (gc gp : List GrpRow) (c : Cell)
    (hndc : (gc.map GrpRow.key).Nodup) (hndp : (gp.map GrpRow.key).Nodup)
    (hc : c ∈ gc.map GrpRow.key ∨ c ∈ gp.map GrpRow.key) :
    ((mergeYoY gc gp).filter (fun row => decide (row.cat = c))).length = 1 := by
  rw [← List.countP_eq_length_filter]
  have hcast : (mergeYoY gc gp).countP (fun row => decide (row.cat = c))
      = ((mergeYoY gc gp).map YoYRow.cat).countP (fun k => decide (k = c)) := by
    rw [List.countP_map]
    rfl
  rw [hcast, mergeYoY_cats, List.countP_append]
  by_cases hcc : c ∈ gc.map GrpRow.key
  · rw [nodup_countP_one _ c hndc hcc]
    have hzero : ((gp.filter (fun y => (grpLookup gc y.key).isNone)).map
        GrpRow.key).countP (fun k => decide (k = c)) = 0 := by
      rw [List.countP_eq_zero]
      intro k hk
      simp only [decide_eq_true_eq]
      intro hkc
      subst hkc
      rw [List.mem_map] at hk
      obtain ⟨y, hy, hyk⟩ := hk
      have hpred := List.of_mem_filter hy
      rw [hyk] at hpred
      rw [Option.isNone_iff_eq_none] at hpred
      have := grpLookup_isSome_of_mem hcc
      rw [hpred] at this
      simp at this
    rw [hzero]
  · rcases hc with hc | hc
    · exact absurd hc hcc
    · have hzero : (gc.map GrpRow.key).countP (fun k => decide (k = c)) = 0 := by
        rw [List.countP_eq_zero]
        intro k hk
        simp only [decide_eq_true_eq]
        intro hkc
        exact hcc (hkc ▸ hk)
      rw [hzero]
      have hnd2 : ((gp.filter (fun y => (grpLookup gc y.key).isNone)).map
          GrpRow.key).Nodup :=
        List.Nodup.sublist (List.Sublist.map _ (List.filter_sublist _)) hndp
      have hmem2 : c ∈ (gp.filter (fun y => (grpLookup gc y.key).isNone)).map
          GrpRow.key := by
        rw [List.mem_map] at hc ⊢
        obtain ⟨y, hy, hyk⟩ := hc
        refine ⟨y, List.mem_filter.mpr ⟨hy, ?_⟩, hyk⟩
        rw [hyk, Option.isNone_iff_eq_none]
        unfold grpLookup
        rw [List.find?_eq_none]
        intro x hx
        simp only [decide_eq_true_eq]
        intro hxk
        exact hcc (List.mem_map.mpr ⟨x, hx, hxk⟩)
      rw [nodup_countP_one _ c hnd2 hmem2]

theorem mkYoYRow_estado (k : Cell) (vA cA sA vP cP sP : ℚ) :
    ((mkYoYRow k vA cA sA vP cP sP).estado = "🟪 Ganó" ↔
      0 ≤ (mkYoYRow k vA cA sA vP cP sP).dShare) ∧
    ((mkYoYRow k vA cA sA vP cP sP).estado = "🔻 Perdió" ↔
      (mkYoYRow k vA cA sA vP cP sP).dShare < 0) := by
  unfold mkYoYRow
  dsimp only
  by_cases h : 0 ≤ sA - sP
  · rw [if_pos h]
    constructor
    · exact ⟨fun _ => h, fun _ => rfl⟩
    · exact ⟨fun hx => absurd hx (by decide), fun hx => absurd h (not_le.mpr hx)⟩
  · rw [if_neg h]
    constructor
    · exact ⟨fun hx => absurd hx.symm (by decide), fun hx => absurd hx h⟩
    · exact ⟨fun _ => not_le.mp h, fun _ => rfl⟩

theorem mergeYoY_rows (gc gp : List GrpRow) :
    ∀ row ∈ mergeYoY gc gp,
      ((row.estado = "🟪 Ganó" ↔ 0 ≤ row.dShare) ∧
       (row.estado = "🔻 Perdió" ↔ row.dShare < 0)) ∧
      (row.cat ∈ gc.map GrpRow.key ∨ (row.volA = 0 ∧ row.cifA = 0 ∧ row.shareA = 0)) ∧
      (row.cat ∈ gp.map GrpRow.key ∨ (row.volP = 0 ∧ row.cifP = 0 ∧ row.shareP = 0)) := by
  intro row hrow
  unfold mergeYoY at hrow
  rcases List.mem_append.mp hrow with hmem | hmem
  · rw [List.mem_map] at hmem
    obtain ⟨x, hx, hrow⟩ := hmem
    cases hl : grpLookup gp x.key with
    | some y =>
      rw [hl] at hrow
      subst hrow
      refine ⟨mkYoYRow_estado .., Or.inl ?_, Or.inl ?_⟩
      · exact List.mem_map.mpr ⟨x, hx, rfl⟩
      · obtain ⟨hyg, hyk⟩ := grpLookup_some hl
        exact List.mem_map.mpr ⟨y, hyg, hyk⟩
    | none =>
      rw [hl] at hrow
      subst hrow
      exact ⟨mkYoYRow_estado .., Or.inl (List.mem_map.mpr ⟨x, hx, rfl⟩),
        Or.inr ⟨rfl, rfl, rfl⟩⟩
  · rw [List.mem_map] at hmem
    obtain ⟨y, hy, hrow⟩ := hmem
    subst hrow
    exact ⟨mkYoYRow_estado .., Or.inr ⟨rfl, rfl, rfl⟩,
      Or.inl (List.mem_map.mpr ⟨y, List.mem_of_mem_filter hy, rfl⟩)⟩

/-- **C7.** For every `yoy_table` result and every category appearing in
the current-year or previous-year grouped slice: the category appears
exactly once in the YoY table; when it is absent from the current
(previous) slice its current (previous) volume, value and share are
exactly 0; and the status flag is "Ganó" precisely when the share delta
is ≥ 0, "Perdió" precisely when it is negative. -/
theorem C7_yoy_outer_join (m v : DF) (dim : String) (ys : List ℤ) (c : Cell)
    (T : List YoYRow) (hT : yoy_table m v dim ys = some T)
    (hc : c ∈ (grpOf (sliceYear v (maxSelYear ys)) dim).map GrpRow.key ∨
          c ∈ (grpOf (sliceYear m (maxSelYear ys - 1)) dim).map GrpRow.key) :
    (T.filter (fun row => decide (row.cat = c))).length = 1 ∧
    (¬c ∈ (grpOf (sliceYear v (maxSelYear ys)) dim).map GrpRow.key →
      ∀ row ∈ T, row.cat = c → row.volA = 0 ∧ row.cifA = 0 ∧ row.shareA = 0) ∧
    (¬c ∈ (grpOf (sliceYear m (maxSelYear ys - 1)) dim).map GrpRow.key →
      ∀ row ∈ T, row.cat = c → row.volP = 0 ∧ row.cifP = 0 ∧ row.shareP = 0) ∧
    (∀ row ∈ T, (row.estado = "🟪 Ganó" ↔ 0 ≤ row.dShare) ∧
      (row.estado = "🔻 Perdió" ↔ row.dShare < 0)) := by
  have hTm : T = mergeYoY (grpOf (sliceYear v (maxSelYear ys)) dim)
      (grpOf (sliceYear m (maxSelYear ys - 1)) dim) := by
    unfold yoy_table at hT
    split at hT
    · exact absurd hT (by simp)
    · dsimp only at hT
      split at hT
      · exact absurd hT (by simp)
      · exact (Option.some.injEq _ _ ▸ hT).symm
  set gc := grpOf (sliceYear v (maxSelYear ys)) dim with hgc
  set gp := grpOf (sliceYear m (maxSelYear ys - 1)) dim with hgp
  have hndc : (gc.map GrpRow.key).Nodup := by
    rw [hgc, grpOf_keys]
    exact groupKeys_nodup _ _
  have hndp : (gp.map GrpRow.key).Nodup := by
    rw [hgp, grpOf_keys]
    exact groupKeys_nodup _ _
  subst hTm
  refine ⟨mergeYoY_count_one gc gp c hndc hndp hc, ?_, ?_, ?_⟩
  · intro hnc row hrow hcat
    rcases (mergeYoY_rows gc gp row hrow).2.1 with hmem | hz
    · exact absurd (hcat ▸ hmem) hnc
    · exact hz
  · intro hnp row hrow hcat
    rcases (mergeYoY_rows gc gp row hrow).2.2 with hmem | hz
    · exact absurd (hcat ▸ hmem) hnp
    · exact hz
  · intro row hrow
    exact (mergeYoY_rows gc gp row hrow).1

/-- The concrete YoY table for the spec's BYD scenario. -/
def c7MainDF : DF :=
  ⟨["AÑO", "MARCA", "CANTIDAD", "VALOR US$ CIF"],
   [[Cell.intv 2023, Cell.str "TOYOTA", Cell.numv 100, Cell.numv 50]]⟩

def c7ViewDF : DF :=
  ⟨["AÑO", "MARCA", "CANTIDAD", "VALOR US$ CIF"],
   [[Cell.intv 2024, Cell.str "BYD", Cell.numv 500, Cell.numv 100],
    [Cell.intv 2024, Cell.str "TOYOTA", Cell.numv 1500, Cell.numv 300]]⟩

def c7Table : List YoYRow :=
  [{ cat := Cell.str "BYD", volA := 500, cifA := 100, shareA := 25,
     volP := 0, cifP := 0, shareP := 0, dShare := 25, dCif := 100,
     estado := "🟪 Ganó" },
   { cat := Cell.str "TOYOTA", volA := 1500, cifA := 300, shareA := 75,
     volP := 100, cifP := 50, shareP := 100, dShare := -25, dCif := 250,
     estado := "🔻 Perdió" }]

/-- Witness for C7 at the spec's scenario: BYD present only in the
current year (volume 500 of 2000 total, share 25), absent from the
previous year — it appears exactly once and its previous-side fields are
exactly 0. -/
theorem C7_yoy_outer_join_witness :
    (c7Table.filter (fun row => decide (row.cat = Cell.str "BYD"))).length = 1 ∧
    ((c7Table.get ⟨0, by decide⟩).volP = 0 ∧
     (c7Table.get ⟨0, by decide⟩).cifP = 0 ∧
     (c7Table.get ⟨0, by decide⟩).shareP = 0) := by
  have h := C7_yoy_outer_join c7MainDF c7ViewDF "MARCA" [2023, 2024]
    (Cell.str "BYD") c7Table (by decide) (by decide)
  exact ⟨h.1, h.2.2.1 (by decide) (c7Table.get ⟨0, by decide⟩) (by decide) (by decide)⟩

/-! ## Claim C1: idempotence of the cleaning pipeline

The second application of `etl_clean` is the identity on a cleaned table
provided every numeric cell survives re-coercion (hypothesis `hnum` below
— the counterexample shows it can fail).  The development first proves
the character/string-level fixed points, then tracks the cell invariants
of a cleaned table through one more pass of each stage. -/

theorem pyUpperChar_not_ws (c : Char) : isWsChar (pyUpperChar c) = isWsChar c := by
  unfold pyUpperChar
  cases hf : upperPairs.find? (fun p => p.1 = c) with
  | none => rfl
  | some p =>
    have hmem := List.mem_of_find?_eq_some hf
    have heq : p.1 = c := by simpa using List.find?_some hf
    have hpair : (isWsChar p.1 = false ∧ isWsChar p.2 = false) := by
      have hall : upperPairs.all
          (fun p => !isWsChar p.1 && !isWsChar p.2) = true := by decide
      have := List.all_eq_true.mp hall p hmem
      simp only [Bool.and_eq_true, Bool.not_eq_true'] at this
      exact this
    rw [hpair.2, ← heq, hpair.1]

theorem pyUpperChar_idem (c : Char) : pyUpperChar (pyUpperChar c) = pyUpperChar c := by
  unfold pyUpperChar
  cases hf : upperPairs.find? (fun p => p.1 = c) with
  | none => rw [hf]
  | some p =>
    have hmem := List.mem_of_find?_eq_some hf
    have hnone : upperPairs.find? (fun q => q.1 = p.2) = none := by
      have hall : upperPairs.all
          (fun p => (upperPairs.find? (fun q => q.1 = p.2)).isNone) = true := by decide
      have := List.all_eq_true.mp hall p hmem
      rwa [Option.isNone_iff_eq_none] at this
    rw [hnone]

theorem pyUpperL_idem (l : List Char) : pyUpperL (pyUpperL l) = pyUpperL l := by
  unfold pyUpperL
  rw [List.map_map]
  apply List.map_congr_left
  intro c _
  exact pyUpperChar_idem c

theorem dropWhile_head_not {p : Char → Bool} :
    ∀ (l : List Char) (c : Char), (l.dropWhile p).head? = some c → p c = false := by
  intro l
  induction l with
  | nil => intro c h; simp at h
  | cons a t ih =>
    intro c h
    rw [List.dropWhile_cons] at h
    split at h
    · exact ih c h
    · simp only [List.head?_cons, Option.some.injEq] at h
      subst h
      rename_i hpa
      simpa using hpa

theorem getLast?_dropWhile {p : Char → Bool} :
    ∀ (l : List Char) (c : Char), l.getLast? = some c → p c = false →
      (l.dropWhile p).getLast? = some c := by
  intro l
  induction l with
  | nil => intro c h _; simp at h
  | cons a t ih =>
    intro c h hc
    rw [List.dropWhile_cons]
    split
    · cases t with
      | nil =>
        simp only [List.getLast?_singleton, Option.some.injEq] at h
        subst h
        rename_i hpa
        rw [hc] at hpa
        exact absurd hpa (by simp)
      | cons b t' =>
        rw [List.getLast?_cons_cons] at h
        exact ih c h hc
    · exact h

theorem dropWhile_id_of_head {p : Char → Bool} (l : List Char)
    (h : ∀ c, l.head? = some c → p c = false) : l.dropWhile p = l := by
  cases l with
  | nil => rfl
  | cons a t =>
    rw [List.dropWhile_cons, if_neg]
    have := h a rfl
    simp [this]

theorem pyStripL_head (l : List Char) :
    ∀ c, (pyStripL l).head? = some c → isWsChar c = false := by
  intro c h
  unfold pyStripL at h
  rw [List.head?_reverse] at h
  set m := l.dropWhile isWsChar with hm
  cases hmh : m.head? with
  | none =>
    rw [List.head?_eq_none_iff] at hmh
    rw [hmh] at h
    simp at h
  | some c0 =>
    have hc0 : isWsChar c0 = false := dropWhile_head_not l c0 (hm ▸ hmh)
    have hrev : m.reverse.getLast? = some c0 := by
      rw [List.getLast?_reverse]
      exact hmh
    rw [getLast?_dropWhile _ c0 hrev hc0] at h
    simp only [Option.some.injEq] at h
    subst h
    exact hc0

theorem pyStripL_last (l : List Char) :
    ∀ c, (pyStripL l).getLast? = some c → isWsChar c = false := by
  intro c h
  unfold pyStripL at h
  rw [List.getLast?_reverse] at h
  exact dropWhile_head_not _ c h

theorem pyStripL_id (l : List Char)
    (hh : ∀ c, l.head? = some c → isWsChar c = false)
    (hl : ∀ c, l.getLast? = some c → isWsChar c = false) : pyStripL l = l := by
  unfold pyStripL
  rw [dropWhile_id_of_head l hh]
  rw [dropWhile_id_of_head l.reverse (fun c hc => hl c (by rwa [List.head?_reverse] at hc))]
  exact List.reverse_reverse l

/-- Normal form of a collapse output: every whitespace character is a
single space and no two adjacent characters are both whitespace. -/
def goodB : List Char → Bool
  | [] => true
  | [c] => !isWsChar c || c = ' '
  | c1 :: c2 :: r => (!isWsChar c1 || c1 = ' ') && !(isWsChar c1 && isWsChar c2) && goodB (c2 :: r)

theorem collapseWs_head : ∀ l : List Char,
    (collapseWs l).head?.map isWsChar = l.head?.map isWsChar := by
  intro l
  induction l using collapseWs.induct with
  | case1 => rfl
  | case2 c h =>
    unfold collapseWs
    rw [if_pos h]
    simp only [List.head?_cons, Option.map_some']
    rw [h]
    decide
  | case3 c h =>
    unfold collapseWs
    rw [if_neg h]
  | case4 c1 c2 r h ih =>
    unfold collapseWs
    rw [if_pos h]
    rw [ih]
    have hb := Bool.and_eq_true .. ▸ h
    simp only [List.head?_cons, Option.map_some']
    rw [hb.1, hb.2]
  | case5 c1 c2 r h ih =>
    unfold collapseWs
    rw [if_neg h]
    by_cases hw : isWsChar c1 = true
    · rw [if_pos hw]
      simp only [List.head?_cons, Option.map_some']
      rw [hw]
      decide
    · rw [if_neg hw]
      simp only [List.head?_cons, Option.map_some']

theorem collapseWs_ne_nil (c : Char) (r : List Char) : collapseWs (c :: r) ≠ [] := by
  intro hnil
  have := collapseWs_head (c :: r)
  rw [hnil] at this
  simp at this

theorem getLast?_cons_of_ne_nil (x : Char) (t : List Char) (h : t ≠ []) :
    (x :: t).getLast? = t.getLast? := by
  cases t with
  | nil => exact absurd rfl h
  | cons b t' => exact List.getLast?_cons_cons ..

theorem collapseWs_last : ∀ (l : List Char) (c : Char),
    l.getLast? = some c → isWsChar c = false →
    (collapseWs l).getLast? = some c := by
  intro l
  induction l using collapseWs.induct with
  | case1 => intro c h _; simp at h
  | case2 c0 h =>
    intro c hc hw
    simp only [List.getLast?_singleton, Option.some.injEq] at hc
    subst hc
    rw [h] at hw
    exact absurd hw (by simp)
  | case3 c0 h =>
    intro c hc hw
    unfold collapseWs
    rw [if_neg h]
    exact hc
  | case4 c1 c2 r h ih =>
    intro c hc hw
    unfold collapseWs
    rw [if_pos h]
    rw [List.getLast?_cons_cons] at hc
    exact ih c hc hw
  | case5 c1 c2 r h ih =>
    intro c hc hw
    unfold collapseWs
    rw [if_neg h]
    rw [List.getLast?_cons_cons] at hc
    rw [getLast?_cons_of_ne_nil _ _ (collapseWs_ne_nil c2 r)]
    exact ih c hc hw

theorem collapseWs_goodB : ∀ l : List Char, goodB (collapseWs l) = true := by
  intro l
  induction l using collapseWs.induct with
  | case1 => rfl
  | case2 c h =>
    unfold collapseWs
    rw [if_pos h]
    rfl
  | case3 c h =>
    unfold collapseWs
    rw [if_neg h]
    unfold goodB
    simp [h]
  | case4 c1 c2 r h ih =>
    unfold collapseWs
    rw [if_pos h]
    exact ih
  | case5 c1 c2 r h ih =>
    unfold collapseWs
    rw [if_neg h]
    have hhead := collapseWs_head (c2 :: r)
    cases hcc : collapseWs (c2 :: r) with
    | nil => exact absurd hcc (collapseWs_ne_nil c2 r)
    | cons y t =>
      rw [hcc] at ih hhead
      simp only [List.head?_cons, Option.map_some] at hhead
      have hy : isWsChar y = isWsChar c2 := by simpa using hhead
      show goodB (_ :: y :: t) = true
      unfold goodB
      rw [Bool.and_eq_true, Bool.and_eq_true]
      refine ⟨⟨?_, ?_⟩, ih⟩
      · by_cases hw : isWsChar c1 = true
        · rw [if_pos hw]
          simp
        · rw [if_neg hw]
          simp [hw]
      · by_cases hw : isWsChar c1 = true
        · rw [if_pos hw]
          have hc2 : isWsChar c2 = false := by
            by_contra hc2
            rw [Bool.not_eq_false] at hc2
            exact h (by rw [hw, hc2]; rfl)
          simp [hy, hc2]
        · rw [if_neg hw]
          simp only [Bool.not_eq_true] at hw
          simp [hw]

theorem goodB_collapseWs_id : ∀ l : List Char, goodB l = true → collapseWs l = l := by
  intro l
  induction l using collapseWs.induct with
  | case1 => intro _; rfl
  | case2 c h =>
    intro hg
    unfold goodB at hg
    rw [h] at hg
    simp only [Bool.not_true, Bool.false_or, decide_eq_true_eq] at hg
    unfold collapseWs
    rw [if_pos h, hg]
  | case3 c h =>
    intro _
    unfold collapseWs
    rw [if_neg h]
  | case4 c1 c2 r h ih =>
    intro hg
    unfold goodB at hg
    rw [h] at hg
    simp at hg
  | case5 c1 c2 r h ih =>
    intro hg
    unfold goodB at hg
    rw [Bool.and_eq_true, Bool.and_eq_true] at hg
    unfold collapseWs
    rw [if_neg h, ih hg.2]
    by_cases hw : isWsChar c1 = true
    · rw [if_pos hw]
      have := hg.1.1
      rw [hw] at this
      simp only [Bool.not_true, Bool.false_or, decide_eq_true_eq] at this
      rw [this]
    · rw [if_neg hw]

theorem pyUpperChar_ws_fix (c : Char) (h : isWsChar c = true) : pyUpperChar c = c := by
  unfold pyUpperChar
  have hnone : upperPairs.find? (fun p => p.1 = c) = none := by
    rw [List.find?_eq_none]
    intro p hp
    have hkey : isWsChar p.1 = false := by
      have hall : upperPairs.all (fun p => !isWsChar p.1) = true := by decide
      have := List.all_eq_true.mp hall p hp
      simpa using this
    simp only [decide_eq_true_eq]
    intro hpc
    rw [hpc, h] at hkey
    exact absurd hkey (by simp)
  rw [hnone]

theorem goodB_map_upper : ∀ l : List Char, goodB (pyUpperL l) = goodB l := by
  intro l
  induction l using goodB.induct with
  | case1 => rfl
  | case2 c =>
    show goodB [pyUpperChar c] = goodB [c]
    unfold goodB
    by_cases hw : isWsChar c = true
    · rw [pyUpperChar_ws_fix c hw]
    · rw [pyUpperChar_not_ws c]
      have hw' : isWsChar c = false := by simpa using hw
      rw [hw']
      simp
  | case3 c1 c2 r ih =>
    show goodB (pyUpperChar c1 :: pyUpperChar c2 :: List.map pyUpperChar r)
      = goodB (c1 :: c2 :: r)
    unfold goodB
    have htail : goodB (pyUpperChar c2 :: List.map pyUpperChar r) = goodB (c2 :: r) := ih
    rw [htail, pyUpperChar_not_ws c1, pyUpperChar_not_ws c2]
    congr 2
    by_cases hw : isWsChar c1 = true
    · rw [pyUpperChar_ws_fix c1 hw]
    · have hw' : isWsChar c1 = false := by simpa using hw
      rw [hw']
      simp

theorem head?_map_ws (f : Char → Char) (l : List Char) :
    (l.map f).head? = l.head?.map f := by
  cases l <;> rfl

theorem getLast?_map_char (f : Char → Char) (l : List Char) :
    (l.map f).getLast? = l.getLast?.map f := by
  rw [← List.head?_reverse, ← List.map_reverse, head?_map_ws, List.head?_reverse]

/-- The normalized column-name string (strip, collapse whitespace,
upper-case) is a fixed point of renormalization. -/
theorem normBase_idem (l : List Char) :
    pyUpperL (collapseWs (pyStripL (pyUpperL (collapseWs (pyStripL l)))))
      = pyUpperL (collapseWs (pyStripL l)) := by
  set m := pyStripL l with hm
  set x := collapseWs m with hx
  have hstrip : pyStripL (pyUpperL x) = pyUpperL x := by
    apply pyStripL_id
    · intro c hc
      rw [show pyUpperL x = x.map pyUpperChar from rfl, head?_map_ws] at hc
      cases hxh : x.head? with
      | none => rw [hxh] at hc; simp at hc
      | some y =>
        rw [hxh] at hc
        simp only [Option.map_some', Option.some.injEq] at hc
        subst hc
        rw [pyUpperChar_not_ws]
        have hhead := collapseWs_head m
        rw [← hx, hxh] at hhead
        cases hmh : m.head? with
        | none => rw [hmh] at hhead; simp at hhead
        | some a =>
          rw [hmh] at hhead
          simp only [Option.map_some', Option.some.injEq] at hhead
          rw [hhead]
          exact pyStripL_head l a (hm ▸ hmh)
    · intro c hc
      rw [show pyUpperL x = x.map pyUpperChar from rfl, getLast?_map_char] at hc
      cases hxl : x.getLast? with
      | none => rw [hxl] at hc; simp at hc
      | some y =>
        rw [hxl] at hc
        simp only [Option.map_some', Option.some.injEq] at hc
        subst hc
        rw [pyUpperChar_not_ws]
        cases hml : m.getLast? with
        | none =>
          rw [List.getLast?_eq_none_iff] at hml
          rw [hx, hml] at hxl
          exact absurd hxl (by simp [collapseWs])
        | some a =>
          have ha : isWsChar a = false := pyStripL_last l a (hm ▸ hml)
          have := collapseWs_last m a hml ha
          rw [← hx, hxl] at this
          simp only [Option.some.injEq] at this
          rw [this]
          exact ha
  have hcollapse : collapseWs (pyUpperL x) = pyUpperL x := by
    apply goodB_collapseWs_id
    rw [goodB_map_upper, hx]
    exact collapseWs_goodB m
  rw [hstrip, hcollapse]
  exact pyUpperL_idem x

theorem canonName_idem (s : String) : canonName (canonName s) = canonName s := by
  have hfix : ∀ p ∈ CANON_COLS, canonName p.2 = p.2 := by decide
  conv_lhs => rw [show canonName s =
    (match CANON_COLS.find? (fun p =>
        p.1 = (⟨pyUpperL (collapseWs (pyStripL s.data))⟩ : String)) with
     | some p => p.2
     | none => (⟨pyUpperL (collapseWs (pyStripL s.data))⟩ : String)) from rfl]
  cases hf : CANON_COLS.find? (fun p =>
      p.1 = (⟨pyUpperL (collapseWs (pyStripL s.data))⟩ : String)) with
  | some p =>
    rw [show canonName s = p.2 from by
      unfold canonName
      dsimp only
      rw [hf]]
    exact hfix p (List.mem_of_find?_eq_some hf)
  | none =>
    rw [show canonName s = (⟨pyUpperL (collapseWs (pyStripL s.data))⟩ : String) from by
      unfold canonName
      dsimp only
      rw [hf]]
    unfold canonName
    dsimp only
    rw [show (⟨pyUpperL (collapseWs (pyStripL
        (String.data (⟨pyUpperL (collapseWs (pyStripL s.data))⟩ : String))))⟩ : String)
      = (⟨pyUpperL (collapseWs (pyStripL s.data))⟩ : String) from
      congrArg String.mk (normBase_idem s.data)]
    rw [hf]

theorem stripUpper_idem (l : List Char) :
    pyUpperL (pyStripL (pyUpperL (pyStripL l))) = pyUpperL (pyStripL l) := by
  set m := pyStripL l with hm
  have hstrip : pyStripL (pyUpperL m) = pyUpperL m := by
    apply pyStripL_id
    · intro c hc
      rw [show pyUpperL m = m.map pyUpperChar from rfl, head?_map_ws] at hc
      cases hmh : m.head? with
      | none => rw [hmh] at hc; simp at hc
      | some a =>
        rw [hmh] at hc
        simp only [Option.map_some', Option.some.injEq] at hc
        subst hc
        rw [pyUpperChar_not_ws]
        exact pyStripL_head l a (hm ▸ hmh)
    · intro c hc
      rw [show pyUpperL m = m.map pyUpperChar from rfl, getLast?_map_char] at hc
      cases hml : m.getLast? with
      | none => rw [hml] at hc; simp at hc
      | some a =>
        rw [hml] at hc
        simp only [Option.map_some', Option.some.injEq] at hc
        subst hc
        rw [pyUpperChar_not_ws]
        exact pyStripL_last l a (hm ▸ hml)
  rw [hstrip]
  exact pyUpperL_idem m

theorem upperStrip_str_fix (l : List Char) :
    safe_upper_str (Cell.str ⟨pyUpperL (pyStripL l)⟩) = (⟨pyUpperL (pyStripL l)⟩ : String) := by
  show (⟨pyUpperL (pyStripL (String.data ⟨pyUpperL (pyStripL l)⟩))⟩ : String) = _
  exact congrArg String.mk (stripUpper_idem l)

/-- `safe_upper_str` output cells are fixed points of the text pass. -/
theorem safe_upper_idem_cell (c : Cell) :
    safe_upper_str (Cell.str (safe_upper_str c)) = safe_upper_str c := by
  cases c with
  | pynone => decide
  | nan => exact upperStrip_str_fix (cellToStr Cell.nan).data
  | inf => exact upperStrip_str_fix (cellToStr Cell.inf).data
  | ninf => exact upperStrip_str_fix (cellToStr Cell.ninf).data
  | str s => exact upperStrip_str_fix (cellToStr (Cell.str s)).data
  | intv z => exact upperStrip_str_fix (cellToStr (Cell.intv z)).data
  | numv q => exact upperStrip_str_fix (cellToStr (Cell.numv q)).data
  | date d => exact upperStrip_str_fix (cellToStr (Cell.date d)).data

theorem brand_fix_str (s : String) : brand_fix_cell (Cell.str s) =
    (match BRAND_FIXES.find? (fun p => p.1 = s) with
     | some p => Cell.str p.2
     | none => Cell.str s) := rfl

/-- Brand alias-correction is idempotent on every cell (the corrected
values are not themselves aliases). -/
theorem brand_fix_idem_cell (c : Cell) :
    brand_fix_cell (brand_fix_cell c) = brand_fix_cell c := by
  cases c with
  | str s =>
    rw [brand_fix_str]
    cases hf : BRAND_FIXES.find? (fun p => p.1 = s) with
    | some p =>
      have hnone : ∀ p ∈ BRAND_FIXES, BRAND_FIXES.find? (fun q => q.1 = p.2) = none := by
        decide
      dsimp only
      rw [brand_fix_str, hnone p (List.mem_of_find?_eq_some hf)]
    | none =>
      dsimp only
      rw [brand_fix_str, hf]
  | pynone => rfl
  | nan => rfl
  | inf => rfl
  | ninf => rfl
  | intv z => rfl
  | numv q => rfl
  | date d => rfl

/-- Brand alias-correction preserves text-pass fixed points. -/
theorem brand_preserves_upper (c : Cell) (h : Cell.str (safe_upper_str c) = c) :
    Cell.str (safe_upper_str (brand_fix_cell c)) = brand_fix_cell c := by
  cases c with
  | str s =>
    rw [brand_fix_str]
    cases hf : BRAND_FIXES.find? (fun p => p.1 = s) with
    | some p =>
      have hfix : ∀ p ∈ BRAND_FIXES,
          Cell.str (safe_upper_str (Cell.str p.2)) = Cell.str p.2 := by decide
      dsimp only
      exact hfix p (List.mem_of_find?_eq_some hf)
    | none =>
      dsimp only
      exact h
  | pynone => exact h
  | nan => exact h
  | inf => exact h
  | ninf => exact h
  | intv z => exact h
  | numv q => exact h
  | date d => exact h

theorem list_foldl_id {α β : Type} (step : β → α → β) (d : β) :
    ∀ ls : List α, (∀ a ∈ ls, step d a = d) → ls.foldl step d = d := by
  intro ls
  induction ls with
  | nil => intro _; rfl
  | cons a t ih =>
    intro h
    rw [List.foldl_cons, h a (by simp)]
    exact ih (fun x hx => h x (by simp [hx]))

theorem foldMapCol_cols (f : Cell → Cell) :
    ∀ (L : List String) (d : DF),
      (L.foldl (fun d col => if d.hasCol col then d.mapCol col f else d) d).cols = d.cols := by
  intro L
  induction L with
  | nil => intro d; rfl
  | cons col L' ih =>
    intro d
    rw [List.foldl_cons]
    by_cases h : d.hasCol col = true
    · rw [if_pos h, ih, mapCol_cols]
    · rw [if_neg h, ih]

theorem foldMapCol_rows_char (f : Cell → Cell) :
    ∀ (L : List String), L.Nodup → ∀ (d : DF), d.WF →
      ∀ r' ∈ (L.foldl (fun d col => if d.hasCol col then d.mapCol col f else d) d).rows,
        ∃ r ∈ d.rows,
          (∀ c', c' ∉ L →
            cellAt (L.foldl (fun d col => if d.hasCol col then d.mapCol col f else d) d) c' r'
              = cellAt d c' r) ∧
          (∀ c' ∈ L, d.hasCol c' = true →
            cellAt (L.foldl (fun d col => if d.hasCol col then d.mapCol col f else d) d) c' r'
              = f (cellAt d c' r)) := by
  intro L
  induction L with
  | nil =>
    intro _ d _ r' hr'
    exact ⟨r', hr', fun c' _ => rfl, fun c' hc' => absurd hc' (by simp)⟩
  | cons col L' ih =>
    intro hnd d hwf r' hr'
    rw [List.foldl_cons] at hr'
    have hndL' : L'.Nodup := (List.nodup_cons.mp hnd).2
    have hcolL' : col ∉ L' := (List.nodup_cons.mp hnd).1
    by_cases h : d.hasCol col = true
    · rw [if_pos h] at hr'
      have hwf1 : (d.mapCol col f).WF := WF_mapCol hwf col f
      obtain ⟨r1, hr1, hA, hB⟩ := ih hndL' (d.mapCol col f) hwf1 r' hr'
      obtain ⟨r0, hr0, hmapv, hmapo⟩ := mapCol_rows_char d col f hwf r1 hr1
      refine ⟨r0, hr0, ?_, ?_⟩
      · intro c' hc'
        have hne : c' ≠ col := fun he => hc' (he ▸ by simp)
        have hniL' : c' ∉ L' := fun he => hc' (by simp [he])
        rw [List.foldl_cons, if_pos h, hA c' hniL', hmapo c' hne]
      · intro c' hc' hdc'
        rw [List.foldl_cons, if_pos h]
        rcases List.mem_cons.mp hc' with rfl | hcL'
        · rw [hA c' hcolL', hmapv h]
        · have hne : c' ≠ col := fun he => hcolL' (he ▸ hcL')
          have hd1c' : (d.mapCol col f).hasCol c' = true := by
            rw [hasCol_congr (mapCol_cols ..) c']
            exact hdc'
          rw [hB c' hcL' hd1c', hmapo c' hne]
    · rw [if_neg h] at hr'
      obtain ⟨r1, hr1, hA, hB⟩ := ih hndL' d hwf r' hr'
      refine ⟨r1, hr1, ?_, ?_⟩
      · intro c' hc'
        have hniL' : c' ∉ L' := fun he => hc' (by simp [he])
        rw [List.foldl_cons, if_neg h, hA c' hniL']
      · intro c' hc' hdc'
        rw [List.foldl_cons, if_neg h]
        rcases List.mem_cons.mp hc' with rfl | hcL'
        · exact absurd hdc' h
        · exact hB c' hcL' hdc'

theorem canonicalize_id (d : DF) (h : ∀ c ∈ d.cols, canonName c = c) :
    canonicalize_columns d = d := by
  unfold canonicalize_columns
  rw [list_map_id_of _ _ h]

theorem cleanTextCols_id (d : DF)
    (h : ∀ col ∈ TEXT_COLS, d.hasCol col = true →
      ∀ r ∈ d.rows, Cell.str (safe_upper_str (cellAt d col r)) = cellAt d col r) :
    cleanTextCols d = d := by
  unfold cleanTextCols
  apply list_foldl_id
  intro col hcol
  by_cases hc : d.hasCol col = true
  · rw [if_pos hc]
    exact mapCol_id d col _ (h col hcol hc)
  · rw [if_neg hc]

theorem cleanBrand_id (d : DF)
    (h : d.hasCol "MARCA" = true →
      ∀ r ∈ d.rows, brand_fix_cell (cellAt d "MARCA" r) = cellAt d "MARCA" r) :
    cleanBrand d = d := by
  unfold cleanBrand
  by_cases hc : d.hasCol "MARCA" = true
  · rw [if_pos hc]
    exact mapCol_id d _ _ (h hc)
  · rw [if_neg hc]

theorem cleanNumCols_id (d : DF)
    (h : ∀ col ∈ NUM_COLS, d.hasCol col = true →
      ∀ r ∈ d.rows, to_number_cell (cellAt d col r) = cellAt d col r) :
    cleanNumCols d = d := by
  unfold cleanNumCols
  apply list_foldl_id
  intro col hcol
  by_cases hc : d.hasCol col = true
  · rw [if_pos hc]
    exact mapCol_id d col _ (h col hcol hc)
  · rw [if_neg hc]

theorem dateStage_fst_id (d : DF)
    (h : d.hasCol "FECHA" = true →
      (∃ iA, colIdx d.cols "AÑO" = some iA) ∧
      (∃ iM, colIdx d.cols "MES_NUM" = some iM) ∧
      ∀ r ∈ d.rows, ∃ dd, cellAt d "FECHA" r = Cell.date dd ∧
        cellAt d "AÑO" r = Cell.intv dd.year ∧
        cellAt d "MES_NUM" r = Cell.intv (Int.ofNat dd.month)) :
    (dateStage d).1 = d := by
  unfold dateStage
  by_cases hf : d.hasCol "FECHA" = true
  · rw [if_pos hf]
    dsimp only
    obtain ⟨⟨iA, hiA⟩, ⟨iM, hiM⟩, hrows⟩ := h hf
    have hmap : d.mapCol "FECHA" to_datetime_cell = d := by
      apply mapCol_id
      intro r hr
      obtain ⟨dd, hdd, _, _⟩ := hrows r hr
      rw [hdd]
      rfl
    rw [hmap]
    have hfilter : d.filterRows (fun r => isDateCell (cellAt d "FECHA" r)) = d := by
      apply filterRows_id
      intro r hr
      obtain ⟨dd, hdd, _, _⟩ := hrows r hr
      rw [hdd]
      rfl
    rw [hfilter]
    have hA : d.addCol "AÑO" (fun r =>
        match cellAt d "FECHA" r with
        | Cell.date dd => Cell.intv dd.year
        | _ => Cell.intv 0) = d := by
      apply addCol_id d _ _ iA hiA
      intro r hr
      obtain ⟨dd, hdd, hy, _⟩ := hrows r hr
      rw [hdd]
      show Cell.intv dd.year = r.getD iA Cell.pynone
      rw [← hy]
      unfold cellAt
      rw [hiA]
    rw [hA]
    have hM : d.addCol "MES_NUM" (fun r =>
        match cellAt d "FECHA" r with
        | Cell.date dd => Cell.intv (Int.ofNat dd.month)
        | _ => Cell.intv 0) = d := by
      apply addCol_id d _ _ iM hiM
      intro r hr
      obtain ⟨dd, hdd, _, hm⟩ := hrows r hr
      rw [hdd]
      show Cell.intv (Int.ofNat dd.month) = r.getD iM Cell.pynone
      rw [← hm]
      unfold cellAt
      rw [hiM]
    rw [hM]
  · rw [if_neg hf]

theorem unitStage_id (d : DF)
    (h1 : (d.hasCol "VALOR US$ CIF" && d.hasCol "CANTIDAD") = true →
      ∃ i, colIdx d.cols "CIF_UNITARIO" = some i ∧
        ∀ r ∈ d.rows, fillna0 (replaceInfNan (cellDiv (cellAt d "VALOR US$ CIF" r)
          (replace0nan (cellAt d "CANTIDAD" r)))) = r.getD i Cell.pynone)
    (h2 : (d.hasCol "FLETE" && d.hasCol "CANTIDAD") = true →
      ∃ i, colIdx d.cols "FLETE_UNITARIO" = some i ∧
        ∀ r ∈ d.rows, fillna0 (replaceInfNan (cellDiv (cellAt d "FLETE" r)
          (replace0nan (cellAt d "CANTIDAD" r)))) = r.getD i Cell.pynone) :
    unitStage d = d := by
  unfold unitStage
  by_cases hc1 : (d.hasCol "VALOR US$ CIF" && d.hasCol "CANTIDAD") = true
  · rw [if_pos hc1]
    obtain ⟨i, hi, hval⟩ := h1 hc1
    rw [addCol_id d _ _ i hi hval]
    by_cases hc2 : (d.hasCol "FLETE" && d.hasCol "CANTIDAD") = true
    · rw [if_pos hc2]
      obtain ⟨j, hj, hval2⟩ := h2 hc2
      exact addCol_id d _ _ j hj hval2
    · rw [if_neg hc2]
  · rw [if_neg hc1]
    by_cases hc2 : (d.hasCol "FLETE" && d.hasCol "CANTIDAD") = true
    · rw [if_pos hc2]
      obtain ⟨j, hj, hval2⟩ := h2 hc2
      exact addCol_id d _ _ j hj hval2
    · rw [if_neg hc2]

theorem qtyStage_id (d : DF)
    (h : d.hasCol "CANTIDAD" = true →
      ∀ r ∈ d.rows, cellGE0 (cellAt d "CANTIDAD" r) = true) :
    qtyStage d = d := by
  unfold qtyStage
  by_cases hc : d.hasCol "CANTIDAD" = true
  · rw [if_pos hc]
    exact filterRows_id d _ (h hc)
  · rw [if_neg hc]

theorem addCol_cols_mem {d : DF} {nc : String} {f : List Cell → Cell} :
    ∀ c ∈ (d.addCol nc f).cols, c ∈ d.cols ∨ c = nc := by
  intro c hc
  rcases addCol_cols_cases d nc f with h | h <;> rw [h] at hc
  · exact Or.inl hc
  · rcases List.mem_append.mp hc with h2 | h2
    · exact Or.inl h2
    · exact Or.inr (by simpa using h2)

theorem qtyStage_cols (d : DF) : (qtyStage d).cols = d.cols := by
  unfold qtyStage
  split <;> rfl

theorem unitStage_cols_mem (d : DF) :
    ∀ c ∈ (unitStage d).cols, c ∈ d.cols ∨ c = "CIF_UNITARIO" ∨ c = "FLETE_UNITARIO" := by
  intro c hc
  unfold unitStage at hc
  dsimp only at hc
  by_cases h1 : (d.hasCol "VALOR US$ CIF" && d.hasCol "CANTIDAD") = true
  · rw [if_pos h1] at hc
    split at hc
    · rcases addCol_cols_mem c hc with h | h
      · rcases addCol_cols_mem c h with h2 | h2
        · exact Or.inl h2
        · exact Or.inr (Or.inl h2)
      · exact Or.inr (Or.inr h)
    · rcases addCol_cols_mem c hc with h | h
      · exact Or.inl h
      · exact Or.inr (Or.inl h)
  · rw [if_neg h1] at hc
    split at hc
    · rcases addCol_cols_mem c hc with h | h
      · exact Or.inl h
      · exact Or.inr (Or.inr h)
    · exact Or.inl hc

theorem dateStage_cols_mem (d : DF) :
    ∀ c ∈ (dateStage d).1.cols, c ∈ d.cols ∨ c = "AÑO" ∨ c = "MES_NUM" := by
  intro c hc
  unfold dateStage at hc
  by_cases hf : d.hasCol "FECHA" = true
  · rw [if_pos hf] at hc
    dsimp only at hc
    rcases addCol_cols_mem c hc with h | h
    · rcases addCol_cols_mem c h with h2 | h2
      · rw [filterRows_cols, mapCol_cols] at h2
        exact Or.inl h2
      · exact Or.inr (Or.inl h2)
    · exact Or.inr (Or.inr h)
  · rw [if_neg hf] at hc
    exact Or.inl hc

/-- Every column name of a cleaned table is a fixed point of the column
canonicalizer. -/
theorem etl_cols_fixed (df : DF) : ∀ c ∈ (etl_clean df).1.cols, canonName c = c := by
  intro c hc
  unfold etl_clean at hc
  dsimp only at hc
  rw [qtyStage_cols] at hc
  rcases unitStage_cols_mem _ c hc with h | h | h
  · rcases dateStage_cols_mem _ c h with h2 | h2 | h2
    · rw [cleanNumCols_cols, cleanBrand_cols, cleanTextCols_cols] at h2
      rw [canonicalize_cols] at h2
      rw [List.mem_map] at h2
      obtain ⟨x, _, rfl⟩ := h2
      exact canonName_idem x
    · rw [h2]; decide
    · rw [h2]; decide
  · rw [h]; decide
  · rw [h]; decide

theorem unitStage_hasCol_ne (d : DF) (c : String)
    (h1 : c ≠ "CIF_UNITARIO") (h2 : c ≠ "FLETE_UNITARIO") :
    (unitStage d).hasCol c = d.hasCol c := by
  unfold unitStage
  dsimp only
  by_cases hc1 : (d.hasCol "VALOR US$ CIF" && d.hasCol "CANTIDAD") = true <;>
    [rw [if_pos hc1]; rw [if_neg hc1]] <;>
    split <;>
    simp only [addCol_hasCol_ne _ _ _ _ h1, addCol_hasCol_ne _ _ _ _ h2]

theorem dateStage_hasCol_ne (d : DF) (c : String)
    (h1 : c ≠ "AÑO") (h2 : c ≠ "MES_NUM") :
    (dateStage d).1.hasCol c = d.hasCol c := by
  unfold dateStage
  by_cases hf : d.hasCol "FECHA" = true
  · rw [if_pos hf]
    dsimp only
    rw [addCol_hasCol_ne _ _ _ _ h2, addCol_hasCol_ne _ _ _ _ h1]
    exact hasCol_congr (by rw [filterRows_cols, mapCol_cols]) c
  · rw [if_neg hf]

theorem dateStage_hasCol_derived (d : DF) (hf : d.hasCol "FECHA" = true) :
    (dateStage d).1.hasCol "AÑO" = true ∧ (dateStage d).1.hasCol "MES_NUM" = true := by
  unfold dateStage
  rw [if_pos hf]
  dsimp only
  constructor
  · rw [addCol_hasCol_ne _ _ _ _ (by decide)]
    exact addCol_hasCol_self _ _ _
  · exact addCol_hasCol_self _ _ _

theorem unitStage_rows_char (d : DF) (hwf : d.WF) :
    ∀ r' ∈ (unitStage d).rows, ∃ r ∈ d.rows,
      (∀ c', c' ≠ "CIF_UNITARIO" → c' ≠ "FLETE_UNITARIO" →
        cellAt (unitStage d) c' r' = cellAt d c' r) ∧
      ((d.hasCol "VALOR US$ CIF" && d.hasCol "CANTIDAD") = true →
        cellAt (unitStage d) "CIF_UNITARIO" r' =
          fillna0 (replaceInfNan (cellDiv (cellAt d "VALOR US$ CIF" r)
            (replace0nan (cellAt d "CANTIDAD" r))))) ∧
      ((d.hasCol "FLETE" && d.hasCol "CANTIDAD") = true →
        cellAt (unitStage d) "FLETE_UNITARIO" r' =
          fillna0 (replaceInfNan (cellDiv (cellAt d "FLETE" r)
            (replace0nan (cellAt d "CANTIDAD" r))))) := by
  intro r' hr'
  unfold unitStage at hr' ⊢
  dsimp only at hr' ⊢
  by_cases hc1 : (d.hasCol "VALOR US$ CIF" && d.hasCol "CANTIDAD") = true
  · rw [if_pos hc1] at hr' ⊢
    set dU1 := d.addCol "CIF_UNITARIO" (fun r =>
      fillna0 (replaceInfNan (cellDiv (cellAt d "VALOR US$ CIF" r)
        (replace0nan (cellAt d "CANTIDAD" r))))) with hdU1
    have hwf1 : dU1.WF := WF_addCol hwf _ _
    have hcond2 : (dU1.hasCol "FLETE" && dU1.hasCol "CANTIDAD")
        = (d.hasCol "FLETE" && d.hasCol "CANTIDAD") := by
      rw [addCol_hasCol_ne _ _ _ _ (by decide), addCol_hasCol_ne _ _ _ _ (by decide)]
    by_cases hc2 : (d.hasCol "FLETE" && d.hasCol "CANTIDAD") = true
    · rw [hcond2, if_pos hc2] at hr' ⊢
      obtain ⟨r1, hr1, hv2, ho2⟩ := addCol_rows_char dU1 "FLETE_UNITARIO" _ hwf1 r' hr'
      obtain ⟨r0, hr0, hv1, ho1⟩ := addCol_rows_char d "CIF_UNITARIO" _ hwf r1 hr1
      refine ⟨r0, hr0, ?_, ?_, ?_⟩
      · intro c' hne1 hne2
        rw [ho2 c' hne2, ho1 c' hne1]
      · intro _
        rw [ho2 "CIF_UNITARIO" (by decide), hv1]
      · intro _
        rw [hv2]
        rw [ho1 "FLETE" (by decide), ho1 "CANTIDAD" (by decide)]
    · rw [hcond2, if_neg hc2] at hr' ⊢
      obtain ⟨r0, hr0, hv1, ho1⟩ := addCol_rows_char d "CIF_UNITARIO" _ hwf r' hr'
      refine ⟨r0, hr0, ?_, ?_, ?_⟩
      · intro c' hne1 _
        exact ho1 c' hne1
      · intro _
        exact hv1
      · intro hx
        exact absurd hx hc2
  · rw [if_neg hc1] at hr' ⊢
    by_cases hc2 : (d.hasCol "FLETE" && d.hasCol "CANTIDAD") = true
    · rw [if_pos hc2] at hr' ⊢
      obtain ⟨r0, hr0, hv1, ho1⟩ := addCol_rows_char d "FLETE_UNITARIO" _ hwf r' hr'
      refine ⟨r0, hr0, ?_, ?_, ?_⟩
      · intro c' _ hne2
        exact ho1 c' hne2
      · intro hx
        exact absurd hx hc1
      · intro _
        exact hv1
    · rw [if_neg hc2] at hr' ⊢
      refine ⟨r', hr', fun c' _ _ => rfl, fun hx => absurd hx hc1, fun hx => absurd hx hc2⟩

theorem dateStage_rows_char (d : DF) (hwf : d.WF) (hf : d.hasCol "FECHA" = true) :
    ∀ r' ∈ (dateStage d).1.rows, ∃ r ∈ d.rows, ∃ dd : PDate,
      cellAt (dateStage d).1 "FECHA" r' = Cell.date dd ∧
      Cell.date dd = to_datetime_cell (cellAt d "FECHA" r) ∧
      cellAt (dateStage d).1 "AÑO" r' = Cell.intv dd.year ∧
      cellAt (dateStage d).1 "MES_NUM" r' = Cell.intv (Int.ofNat dd.month) ∧
      (∀ c', c' ≠ "FECHA" → c' ≠ "AÑO" → c' ≠ "MES_NUM" →
        cellAt (dateStage d).1 c' r' = cellAt d c' r) := by
  intro r' hr'
  unfold dateStage at hr' ⊢
  rw [if_pos hf] at hr' ⊢
  dsimp only at hr' ⊢
  set d1 := d.mapCol "FECHA" to_datetime_cell with hd1
  set d2 := d1.filterRows (fun r => isDateCell (cellAt d1 "FECHA" r)) with hd2
  have hwf1 : d1.WF := WF_mapCol hwf _ _
  have hwf2 : d2.WF := WF_filterRows hwf1 _
  set dA := d2.addCol "AÑO" (fun r =>
    match cellAt d2 "FECHA" r with
    | Cell.date dd => Cell.intv dd.year
    | _ => Cell.intv 0) with hdA
  have hwfA : dA.WF := WF_addCol hwf2 _ _
  obtain ⟨rA, hrA, hvM, hoM⟩ := addCol_rows_char dA "MES_NUM" _ hwfA r' hr'
  obtain ⟨r2, hr2, hvA, hoA⟩ := addCol_rows_char d2 "AÑO" _ hwf2 rA hrA
  have hr2' : r2 ∈ d1.rows.filter (fun r => isDateCell (cellAt d1 "FECHA" r)) := hr2
  have hfilter := List.mem_filter.mp hr2'
  have hr1 : r2 ∈ d1.rows := hfilter.1
  have hdate : isDateCell (cellAt d1 "FECHA" r2) = true := by simpa using hfilter.2
  obtain ⟨r0, hr0, hv1, ho1⟩ := mapCol_rows_char d "FECHA" to_datetime_cell hwf r2 hr1
  cases hcell : cellAt d1 "FECHA" r2 with
  | date dd =>
    refine ⟨r0, hr0, dd, ?_, ?_, ?_, ?_, ?_⟩
    · -- FECHA cell of the final row
      rw [hoM "FECHA" (by decide), hoA "FECHA" (by decide)]
      have : cellAt d2 "FECHA" r2 = cellAt d1 "FECHA" r2 :=
        cellAt_congr (by rw [hd2, filterRows_cols]) _ _
      rw [this, hcell]
    · rw [← hcell, hv1 hf]
    · rw [hoM "AÑO" (by decide), hvA]
      have : cellAt d2 "FECHA" r2 = cellAt d1 "FECHA" r2 :=
        cellAt_congr (by rw [hd2, filterRows_cols]) _ _
      rw [this, hcell]
    · rw [hvM]
      have hAF : cellAt dA "FECHA" rA = cellAt d2 "FECHA" r2 := hoA "FECHA" (by decide)
      have : cellAt d2 "FECHA" r2 = cellAt d1 "FECHA" r2 :=
        cellAt_congr (by rw [hd2, filterRows_cols]) _ _
      rw [hAF, this, hcell]
    · intro c' hne1 hne2 hne3
      rw [hoM c' hne3, hoA c' hne2]
      have : cellAt d2 c' r2 = cellAt d1 c' r2 :=
        cellAt_congr (by rw [hd2, filterRows_cols]) _ _
      rw [this, ho1 c' hne1]
  | pynone => rw [hcell] at hdate; simp [isDateCell] at hdate
  | nan => rw [hcell] at hdate; simp [isDateCell] at hdate
  | inf => rw [hcell] at hdate; simp [isDateCell] at hdate
  | ninf => rw [hcell] at hdate; simp [isDateCell] at hdate
  | str s => rw [hcell] at hdate; simp [isDateCell] at hdate
  | intv z => rw [hcell] at hdate; simp [isDateCell] at hdate
  | numv q => rw [hcell] at hdate; simp [isDateCell] at hdate

theorem unitStage_hasCol_cif (d : DF)
    (h : (d.hasCol "VALOR US$ CIF" && d.hasCol "CANTIDAD") = true) :
    (unitStage d).hasCol "CIF_UNITARIO" = true := by
  unfold unitStage
  dsimp only
  rw [if_pos h]
  split
  · exact addCol_hasCol _ _ _ _ (addCol_hasCol_self _ _ _)
  · exact addCol_hasCol_self _ _ _

theorem unitStage_hasCol_flete (d : DF)
    (h : (d.hasCol "FLETE" && d.hasCol "CANTIDAD") = true) :
    (unitStage d).hasCol "FLETE_UNITARIO" = true := by
  unfold unitStage
  dsimp only
  by_cases h1 : (d.hasCol "VALOR US$ CIF" && d.hasCol "CANTIDAD") = true
  · rw [if_pos h1]
    split
    · exact addCol_hasCol_self _ _ _
    · next hcond =>
        exfalso
        apply hcond
        rw [addCol_hasCol_ne _ _ _ _ (show "FLETE" ≠ "CIF_UNITARIO" by decide),
            addCol_hasCol_ne _ _ _ _ (show "CANTIDAD" ≠ "CIF_UNITARIO" by decide)]
        exact h
  · rw [if_neg h1, if_pos h]
    exact addCol_hasCol_self _ _ _

/-- The row-level invariants that hold of every table `etl_clean` returns:
text columns are fixed points of the upper-casing pass, MARCA of the brand
alias correction, FECHA holds a parsed date matching AÑO and MES_NUM, the
unit metrics equal their defining formula over the table's own cells, and
CANTIDAD is non-negative. -/
def CleanInv (T : DF) : Prop :=
  ∀ r ∈ T.rows,
    (∀ col ∈ TEXT_COLS, T.hasCol col = true →
      Cell.str (safe_upper_str (cellAt T col r)) = cellAt T col r) ∧
    (T.hasCol "MARCA" = true →
      brand_fix_cell (cellAt T "MARCA" r) = cellAt T "MARCA" r) ∧
    (T.hasCol "FECHA" = true →
      ∃ dd, cellAt T "FECHA" r = Cell.date dd ∧
        cellAt T "AÑO" r = Cell.intv dd.year ∧
        cellAt T "MES_NUM" r = Cell.intv (Int.ofNat dd.month)) ∧
    ((T.hasCol "VALOR US$ CIF" && T.hasCol "CANTIDAD") = true →
      cellAt T "CIF_UNITARIO" r =
        fillna0 (replaceInfNan (cellDiv (cellAt T "VALOR US$ CIF" r)
          (replace0nan (cellAt T "CANTIDAD" r))))) ∧
    ((T.hasCol "FLETE" && T.hasCol "CANTIDAD") = true →
      cellAt T "FLETE_UNITARIO" r =
        fillna0 (replaceInfNan (cellDiv (cellAt T "FLETE" r)
          (replace0nan (cellAt T "CANTIDAD" r))))) ∧
    (T.hasCol "CANTIDAD" = true →
      cellGE0 (cellAt T "CANTIDAD" r) = true)


theorem text_cols_ne : ∀ c ∈ TEXT_COLS, c ≠ "CIF_UNITARIO" ∧ c ≠ "FLETE_UNITARIO" ∧
    c ≠ "FECHA" ∧ c ≠ "AÑO" ∧ c ≠ "MES_NUM" ∧ c ∉ NUM_COLS := by decide

/-- Each of the seven cleaning stages chained: the resulting table
satisfies every cleaned-table invariant. -/
theorem pipeline_CleanInv (d1 d2 d3 d4 d5 d6 T : DF) (hwf1 : d1.WF)
    (hd2 : d2 = cleanTextCols d1) (hd3 : d3 = cleanBrand d2)
    (hd4 : d4 = cleanNumCols d3) (hd5 : d5 = (dateStage d4).1)
    (hd6 : d6 = unitStage d5) (hT : T = qtyStage d6) :
    CleanInv T := by
  unfold CleanInv
  have hwf2 : d2.WF := by rw [hd2]; exact WF_cleanTextCols hwf1
  have hwf3 : d3.WF := by rw [hd3]; exact WF_cleanBrand hwf2
  have hwf4 : d4.WF := by rw [hd4]; exact WF_cleanNumCols hwf3
  have hwf5 : d5.WF := by rw [hd5]; exact WF_dateStage hwf4
  have hcols21 : d2.cols = d1.cols := by rw [hd2, cleanTextCols_cols]
  have hcols41 : d4.cols = d1.cols := by
    rw [hd4, cleanNumCols_cols, hd3, cleanBrand_cols, hd2, cleanTextCols_cols]
  have hcolsT6 : T.cols = d6.cols := by rw [hT, qtyStage_cols]
  have hT6c : ∀ c, T.hasCol c = d6.hasCol c := fun c => hasCol_congr hcolsT6 c
  have h65 : ∀ c, c ≠ "CIF_UNITARIO" → c ≠ "FLETE_UNITARIO" →
      d6.hasCol c = d5.hasCol c := by
    intro c hne1 hne2
    rw [hd6]
    exact unitStage_hasCol_ne d5 c hne1 hne2
  have h54 : ∀ c, c ≠ "AÑO" → c ≠ "MES_NUM" → d5.hasCol c = d4.hasCol c := by
    intro c hne1 hne2
    rw [hd5]
    exact dateStage_hasCol_ne d4 c hne1 hne2
  have h41 : ∀ c, d4.hasCol c = d1.hasCol c := fun c => hasCol_congr hcols41 c
  intro r hr
  have hcT : ∀ c, cellAt T c r = cellAt d6 c r := fun c => cellAt_congr hcolsT6 c r
  rw [hT] at hr
  unfold qtyStage at hr
  have hr6 : r ∈ d6.rows ∧ (d6.hasCol "CANTIDAD" = true →
      cellGE0 (cellAt d6 "CANTIDAD" r) = true) := by
    by_cases hq : d6.hasCol "CANTIDAD" = true
    · rw [if_pos hq] at hr
      have hmem : r ∈ d6.rows.filter (fun rr => cellGE0 (cellAt d6 "CANTIDAD" rr)) := hr
      have h2 := List.mem_filter.mp hmem
      exact ⟨h2.1, fun _ => h2.2⟩
    · rw [if_neg hq] at hr
      exact ⟨hr, fun h => absurd h hq⟩
  have hr6' : r ∈ (unitStage d5).rows := by rw [← hd6]; exact hr6.1
  obtain ⟨r5, hr5, hu_other, hu_cif, hu_flete⟩ := unitStage_rows_char d5 hwf5 r hr6'
  rw [← hd6] at hu_other hu_cif hu_flete
  have hdate5 : ∃ r4 ∈ d4.rows,
      (∀ c', c' ≠ "FECHA" → c' ≠ "AÑO" → c' ≠ "MES_NUM" →
        cellAt d5 c' r5 = cellAt d4 c' r4) ∧
      (d4.hasCol "FECHA" = true → ∃ dd,
        cellAt d5 "FECHA" r5 = Cell.date dd ∧
        cellAt d5 "AÑO" r5 = Cell.intv dd.year ∧
        cellAt d5 "MES_NUM" r5 = Cell.intv (Int.ofNat dd.month)) := by
    by_cases hf : d4.hasCol "FECHA" = true
    · have hr5' : r5 ∈ (dateStage d4).1.rows := by rw [← hd5]; exact hr5
      obtain ⟨r4, hr4, dd, hF, hparse, hY, hM, hoth⟩ :=
        dateStage_rows_char d4 hwf4 hf r5 hr5'
      rw [← hd5] at hF hY hM hoth
      exact ⟨r4, hr4, hoth, fun _ => ⟨dd, hF, hY, hM⟩⟩
    · have h54id : d5 = d4 := by rw [hd5]; unfold dateStage; rw [if_neg hf]
      refine ⟨r5, by rw [← h54id]; exact hr5, ?_, fun h => absurd h hf⟩
      intro c' _ _ _
      rw [h54id]
  obtain ⟨r4, hr4, hd_other, hd_date⟩ := hdate5
  have hfoldn : (NUM_COLS.foldl
      (fun d col => if d.hasCol col then d.mapCol col to_number_cell else d) d3) = d4 := by
    rw [hd4]; rfl
  have hr4f : r4 ∈ (NUM_COLS.foldl
      (fun d col => if d.hasCol col then d.mapCol col to_number_cell else d) d3).rows := by
    rw [hfoldn]; exact hr4
  obtain ⟨r3, hr3, hn_other, hn_val⟩ :=
    foldMapCol_rows_char to_number_cell NUM_COLS (by decide) d3 hwf3 r4 hr4f
  rw [hfoldn] at hn_other hn_val
  have hbrand : ∃ r2 ∈ d2.rows,
      (∀ c', c' ≠ "MARCA" → cellAt d3 c' r3 = cellAt d2 c' r2) ∧
      (d2.hasCol "MARCA" = true →
        cellAt d3 "MARCA" r3 = brand_fix_cell (cellAt d2 "MARCA" r2)) := by
    by_cases hm : d2.hasCol "MARCA" = true
    · have h3eq : d3 = d2.mapCol "MARCA" brand_fix_cell := by
        rw [hd3]; unfold cleanBrand; rw [if_pos hm]
      have hr3' : r3 ∈ (d2.mapCol "MARCA" brand_fix_cell).rows := by
        rw [← h3eq]; exact hr3
      obtain ⟨r2, hr2, hval, hoth⟩ := mapCol_rows_char d2 "MARCA" brand_fix_cell hwf2 r3 hr3'
      rw [← h3eq] at hval hoth
      exact ⟨r2, hr2, hoth, hval⟩
    · have h3eq : d3 = d2 := by rw [hd3]; unfold cleanBrand; rw [if_neg hm]
      refine ⟨r3, by rw [← h3eq]; exact hr3, ?_, fun h => absurd h hm⟩
      intro c' _
      rw [h3eq]
  obtain ⟨r2, hr2, hb_other, hb_marca⟩ := hbrand
  have hfoldt : (TEXT_COLS.foldl
      (fun d col => if d.hasCol col then d.mapCol col (fun c => Cell.str (safe_upper_str c)) else d) d1) = d2 := by
    rw [hd2]; rfl
  have hr2f : r2 ∈ (TEXT_COLS.foldl
      (fun d col => if d.hasCol col then d.mapCol col (fun c => Cell.str (safe_upper_str c)) else d) d1).rows := by
    rw [hfoldt]; exact hr2
  obtain ⟨r1, hr1, ht_other, ht_val⟩ :=
    foldMapCol_rows_char (fun c => Cell.str (safe_upper_str c)) TEXT_COLS (by decide) d1 hwf1 r2 hr2f
  rw [hfoldt] at ht_other ht_val
  refine ⟨?_, ?_, ?_, ?_, ?_, ?_⟩
  · intro col hcol hTcol
    obtain ⟨hne1, hne2, hne3, hne4, hne5, hniN⟩ := text_cols_ne col hcol
    have h1col : d1.hasCol col = true := by
      rw [← h41 col, ← h54 col hne4 hne5, ← h65 col hne1 hne2, ← hT6c col]
      exact hTcol
    have hTd3 : cellAt T col r = cellAt d3 col r3 := by
      rw [hcT col, hu_other col hne1 hne2, hd_other col hne3 hne4 hne5, hn_other col hniN]
    by_cases hcolM : col = "MARCA"
    · subst hcolM
      have hm : d2.hasCol "MARCA" = true := by
        rw [hasCol_congr hcols21 "MARCA"]
        exact h1col
      rw [hTd3, hb_marca hm, ht_val "MARCA" (by decide) h1col]
      exact brand_preserves_upper (Cell.str (safe_upper_str (cellAt d1 "MARCA" r1)))
        (congrArg Cell.str (safe_upper_idem_cell (cellAt d1 "MARCA" r1)))
    · rw [hTd3, hb_other col hcolM, ht_val col hcol h1col]
      exact congrArg Cell.str (safe_upper_idem_cell (cellAt d1 col r1))
  · intro hTm
    have h1m : d1.hasCol "MARCA" = true := by
      rw [← h41 "MARCA", ← h54 "MARCA" (by decide) (by decide),
          ← h65 "MARCA" (by decide) (by decide), ← hT6c "MARCA"]
      exact hTm
    have hm : d2.hasCol "MARCA" = true := by
      rw [hasCol_congr hcols21 "MARCA"]
      exact h1m
    have hTd3 : cellAt T "MARCA" r = cellAt d3 "MARCA" r3 := by
      rw [hcT "MARCA", hu_other "MARCA" (by decide) (by decide),
          hd_other "MARCA" (by decide) (by decide) (by decide), hn_other "MARCA" (by decide)]
    rw [hTd3, hb_marca hm]
    exact brand_fix_idem_cell _
  · intro hTf
    have h4f : d4.hasCol "FECHA" = true := by
      rw [← h54 "FECHA" (by decide) (by decide), ← h65 "FECHA" (by decide) (by decide),
          ← hT6c "FECHA"]
      exact hTf
    obtain ⟨dd, hF5, hY5, hM5⟩ := hd_date h4f
    refine ⟨dd, ?_, ?_, ?_⟩
    · rw [hcT "FECHA", hu_other "FECHA" (by decide) (by decide)]
      exact hF5
    · rw [hcT "AÑO", hu_other "AÑO" (by decide) (by decide)]
      exact hY5
    · rw [hcT "MES_NUM", hu_other "MES_NUM" (by decide) (by decide)]
      exact hM5
  · intro hTcond
    rw [hT6c "VALOR US$ CIF", hT6c "CANTIDAD",
        h65 "VALOR US$ CIF" (by decide) (by decide),
        h65 "CANTIDAD" (by decide) (by decide)] at hTcond
    have hV : cellAt d5 "VALOR US$ CIF" r5 = cellAt T "VALOR US$ CIF" r := by
      rw [hcT "VALOR US$ CIF", hu_other "VALOR US$ CIF" (by decide) (by decide)]
    have hC : cellAt d5 "CANTIDAD" r5 = cellAt T "CANTIDAD" r := by
      rw [hcT "CANTIDAD", hu_other "CANTIDAD" (by decide) (by decide)]
    rw [hcT "CIF_UNITARIO", hu_cif hTcond, hV, hC]
  · intro hTcond
    rw [hT6c "FLETE", hT6c "CANTIDAD",
        h65 "FLETE" (by decide) (by decide),
        h65 "CANTIDAD" (by decide) (by decide)] at hTcond
    have hV : cellAt d5 "FLETE" r5 = cellAt T "FLETE" r := by
      rw [hcT "FLETE", hu_other "FLETE" (by decide) (by decide)]
    have hC : cellAt d5 "CANTIDAD" r5 = cellAt T "CANTIDAD" r := by
      rw [hcT "CANTIDAD", hu_other "CANTIDAD" (by decide) (by decide)]
    rw [hcT "FLETE_UNITARIO", hu_flete hTcond, hV, hC]
  · intro hTq
    have h6q : d6.hasCol "CANTIDAD" = true := by
      rw [← hT6c "CANTIDAD"]
      exact hTq
    rw [hcT "CANTIDAD"]
    exact hr6.2 h6q

/-- Every table returned by `etl_clean` satisfies the cleaned-table
invariants. -/
theorem etl_CleanInv (df : DF) (hwf : df.WF) : CleanInv (etl_clean df).1 := by
  have h := pipeline_CleanInv (canonicalize_columns df)
    (cleanTextCols (canonicalize_columns df))
    (cleanBrand (cleanTextCols (canonicalize_columns df)))
    (cleanNumCols (cleanBrand (cleanTextCols (canonicalize_columns df))))
    ((dateStage (cleanNumCols (cleanBrand (cleanTextCols (canonicalize_columns df))))).1)
    (unitStage ((dateStage (cleanNumCols (cleanBrand (cleanTextCols (canonicalize_columns df))))).1))
    (qtyStage (unitStage ((dateStage (cleanNumCols (cleanBrand (cleanTextCols (canonicalize_columns df))))).1)))
    (WF_canonicalize hwf) rfl rfl rfl rfl rfl rfl
  unfold etl_clean
  dsimp only
  exact h

theorem pipeline_hasCol_derived (d4 d5 d6 T : DF)
    (hd5 : d5 = (dateStage d4).1) (hd6 : d6 = unitStage d5) (hT : T = qtyStage d6) :
    (T.hasCol "FECHA" = true → T.hasCol "AÑO" = true ∧ T.hasCol "MES_NUM" = true) ∧
    ((T.hasCol "VALOR US$ CIF" && T.hasCol "CANTIDAD") = true →
      T.hasCol "CIF_UNITARIO" = true) ∧
    ((T.hasCol "FLETE" && T.hasCol "CANTIDAD") = true →
      T.hasCol "FLETE_UNITARIO" = true) := by
  have hcolsT6 : T.cols = d6.cols := by rw [hT, qtyStage_cols]
  have hT6 : ∀ c, T.hasCol c = d6.hasCol c := fun c => hasCol_congr hcolsT6 c
  have h65 : ∀ c, c ≠ "CIF_UNITARIO" → c ≠ "FLETE_UNITARIO" →
      d6.hasCol c = d5.hasCol c := by
    intro c hne1 hne2
    rw [hd6]
    exact unitStage_hasCol_ne d5 c hne1 hne2
  have h54 : ∀ c, c ≠ "AÑO" → c ≠ "MES_NUM" → d5.hasCol c = d4.hasCol c := by
    intro c hne1 hne2
    rw [hd5]
    exact dateStage_hasCol_ne d4 c hne1 hne2
  refine ⟨?_, ?_, ?_⟩
  · intro hf
    have h4f : d4.hasCol "FECHA" = true := by
      rw [← h54 "FECHA" (by decide) (by decide), ← h65 "FECHA" (by decide) (by decide),
          ← hT6 "FECHA"]
      exact hf
    have hder := dateStage_hasCol_derived d4 h4f
    constructor
    · rw [hT6 "AÑO", h65 "AÑO" (by decide) (by decide), hd5]
      exact hder.1
    · rw [hT6 "MES_NUM", h65 "MES_NUM" (by decide) (by decide), hd5]
      exact hder.2
  · intro hcond
    rw [hT6 "VALOR US$ CIF", hT6 "CANTIDAD",
        h65 "VALOR US$ CIF" (by decide) (by decide),
        h65 "CANTIDAD" (by decide) (by decide)] at hcond
    rw [hT6 "CIF_UNITARIO", hd6]
    exact unitStage_hasCol_cif d5 hcond
  · intro hcond
    rw [hT6 "FLETE", hT6 "CANTIDAD",
        h65 "FLETE" (by decide) (by decide),
        h65 "CANTIDAD" (by decide) (by decide)] at hcond
    rw [hT6 "FLETE_UNITARIO", hd6]
    exact unitStage_hasCol_flete d5 hcond

/-- Columns `etl_clean` derives are present in its output whenever their
source columns are. -/
theorem etl_hasCol_derived (df : DF) :
    ((etl_clean df).1.hasCol "FECHA" = true →
      (etl_clean df).1.hasCol "AÑO" = true ∧ (etl_clean df).1.hasCol "MES_NUM" = true) ∧
    (((etl_clean df).1.hasCol "VALOR US$ CIF" && (etl_clean df).1.hasCol "CANTIDAD") = true →
      (etl_clean df).1.hasCol "CIF_UNITARIO" = true) ∧
    (((etl_clean df).1.hasCol "FLETE" && (etl_clean df).1.hasCol "CANTIDAD") = true →
      (etl_clean df).1.hasCol "FLETE_UNITARIO" = true) := by
  have h := pipeline_hasCol_derived
    (cleanNumCols (cleanBrand (cleanTextCols (canonicalize_columns df))))
    ((dateStage (cleanNumCols (cleanBrand (cleanTextCols (canonicalize_columns df))))).1)
    (unitStage ((dateStage (cleanNumCols (cleanBrand (cleanTextCols (canonicalize_columns df))))).1))
    (qtyStage (unitStage ((dateStage (cleanNumCols (cleanBrand (cleanTextCols (canonicalize_columns df))))).1)))
    rfl rfl rfl
  unfold etl_clean
  dsimp only
  exact h

def c1df : DF := { cols := ["CANTIDAD"], rows := [[Cell.str "12.3450"]] }

/-- C1 (counterexample): cleaning is not idempotent as claimed.  On the
one-cell table with CANTIDAD `"12.3450"` the first pass coerces the value
to the number 12.345; the second pass re-serializes it as `"12.345"`,
where the thousands-separator regex `(?<=\d)\.(?=\d{3}\b)` now fires
(three digits then a word boundary) and the value becomes 12345 — a
thousandfold change. -/
theorem C1_counterexample :
    (etl_clean (etl_clean c1df).1).1 ≠ (etl_clean c1df).1 := by decide

/-- C1 (amended): re-cleaning a cleaned table is the identity provided the
numeric coercion is stable on the cleaned numeric columns (the hypothesis
the counterexample violates).  Column canonicalization, the text
upper-casing pass, the brand alias correction, the date parsing with its
derived AÑO/MES_NUM columns, the unit metrics and the non-negative
quantity guardrail are all individually idempotent; only the numeric
re-coercion of re-serialized floats can change a cleaned table. -/
theorem C1_amended (df : DF) (hwf : df.WF)
    (hnum : ∀ col ∈ NUM_COLS, (etl_clean df).1.hasCol col = true →
      ∀ r ∈ (etl_clean df).1.rows,
        to_number_cell (cellAt (etl_clean df).1 col r) = cellAt (etl_clean df).1 col r) :
    (etl_clean (etl_clean df).1).1 = (etl_clean df).1 := by
  have hinv := etl_CleanInv df hwf
  have hcols := etl_hasCol_derived df
  have hfix := etl_cols_fixed df
  unfold CleanInv at hinv
  generalize hG : (etl_clean df).1 = T at hinv hcols hfix hnum ⊢
  unfold etl_clean
  dsimp only
  rw [canonicalize_id T hfix]
  rw [cleanTextCols_id T (fun col hcol hc r hr => ((hinv r hr).1) col hcol hc)]
  rw [cleanBrand_id T (fun hc r hr => ((hinv r hr).2.1) hc)]
  rw [cleanNumCols_id T hnum]
  have hdateh : (dateStage T).1 = T := by
    apply dateStage_fst_id
    intro hf
    obtain ⟨hA, hM⟩ := hcols.1 hf
    refine ⟨(hasCol_iff_mem T "AÑO").mp hA, (hasCol_iff_mem T "MES_NUM").mp hM, ?_⟩
    intro r hr
    exact (hinv r hr).2.2.1 hf
  rw [hdateh]
  have hunit : unitStage T = T := by
    apply unitStage_id
    · intro hcond
      obtain ⟨i, hi⟩ := (hasCol_iff_mem T "CIF_UNITARIO").mp (hcols.2.1 hcond)
      refine ⟨i, hi, ?_⟩
      intro r hr
      have hcell : cellAt T "CIF_UNITARIO" r = r.getD i Cell.pynone := by
        unfold cellAt
        rw [hi]
      rw [← hcell]
      exact ((hinv r hr).2.2.2.1 hcond).symm
    · intro hcond
      obtain ⟨i, hi⟩ := (hasCol_iff_mem T "FLETE_UNITARIO").mp (hcols.2.2 hcond)
      refine ⟨i, hi, ?_⟩
      intro r hr
      have hcell : cellAt T "FLETE_UNITARIO" r = r.getD i Cell.pynone := by
        unfold cellAt
        rw [hi]
      rw [← hcell]
      exact ((hinv r hr).2.2.2.2.1 hcond).symm
  rw [hunit]
  exact qtyStage_id T (fun hc r hr => (hinv r hr).2.2.2.2.2 hc)

def c1w : DF := { cols := ["CANTIDAD"], rows := [[Cell.str "7"]] }

theorem C1_amended_witness :
    (etl_clean (etl_clean c1w).1).1 = (etl_clean c1w).1 :=
  C1_amended c1w (by decide) (by decide)
